import Mathlib

/-!
Shallow embedding of the core of the putrv4 repository: the CSV
ledger-import pipeline (`src/services/import_service.py`) and the player
statistics recalculation engine (`src/services/player_stats_service.py`).

Python `float`/`int` values on the money fields are modelled as exact
rationals (`Rat`); every concrete value appearing in the spec's scenarios
is exactly representable, and the spec declares IEEE-754 precision beyond
that a non-goal.  Python strings are modelled through their character
lists.  Database sessions become an explicit `DB` state record; a raised
Python exception becomes `Except.error`, and — since the callers commit
only after an import completes — an `Except.error` outcome means the
transaction is rolled back and no state change becomes durable.
-/

/-- Python whitespace test used by `str.strip()` / `int()` / `float()`. -/
def isPyWs (c : Char) : Bool := c.isWhitespace

/-- Model of Python `str.strip()` on a character list. -/
def pyStrip (l : List Char) : List Char :=
  ((l.dropWhile isPyWs).reverse.dropWhile isPyWs).reverse

/-- Digit-run parser for Python numeric literals: `digit (('_')? digit)*`.
Accumulates the value of the digits; a leading, trailing or doubled
underscore is rejected, as in CPython. -/
def digitsUAux : List Char → Nat → Option Nat
  | [], acc => some acc
  | '_' :: c :: rest, acc =>
    if c.isDigit then digitsUAux rest (acc * 10 + (c.toNat - 48)) else none
  | c :: rest, acc =>
    if c.isDigit then digitsUAux rest (acc * 10 + (c.toNat - 48)) else none

/-- Parse a non-empty digit run (with Python's underscore grouping). -/
def digitsU : List Char → Option Nat
  | [] => none
  | '_' :: _ => none
  | c :: rest => if c.isDigit then digitsUAux rest (c.toNat - 48) else none

/-- Count of actual digits in a digit run (underscores excluded). -/
def digitCount (l : List Char) : Nat := (l.filter (·.isDigit)).length

/-- Model of Python `int(str)`: strip whitespace, optional sign, digit run.
Returns `none` where CPython raises `ValueError`. -/
def pyInt : List Char → Option Int :=
  fun l =>
    let t := pyStrip l
    match t with
    | '+' :: rest => (digitsU rest).map (fun n => (n : Int))
    | '-' :: rest => (digitsU rest).map (fun n => -(n : Int))
    | _ => (digitsU t).map (fun n => (n : Int))

/-- Integer power of ten as a rational, for decimal exponents. -/
def pow10 (e : Int) : Rat :=
  if 0 ≤ e then ((10 : Rat) ^ e.toNat) else 1 / ((10 : Rat) ^ (-e).toNat)

/-- Mantissa of a Python float literal: `digits [. digits?] | . digits`. -/
def parseMantissa (l : List Char) : Option Rat :=
  match l.splitOn '.' with
  | [intPart] => (digitsU intPart).map (fun n => (n : Rat))
  | [intPart, fracPart] =>
    match intPart, fracPart with
    | [], [] => none
    | [], f => (digitsU f).map (fun n => (n : Rat) / pow10 (digitCount f))
    | i, [] => (digitsU i).map (fun n => (n : Rat))
    | i, f =>
      match digitsU i, digitsU f with
      | some ni, some nf => some ((ni : Rat) + (nf : Rat) / pow10 (digitCount f))
      | _, _ => none
  | _ => none

/-- Signed exponent of a Python float literal. -/
def parseExponent (l : List Char) : Option Int :=
  match l with
  | '+' :: rest => (digitsU rest).map (fun n => (n : Int))
  | '-' :: rest => (digitsU rest).map (fun n => -(n : Int))
  | _ => (digitsU l).map (fun n => (n : Int))

/-- Split a float literal at the first `e`/`E`, if any. -/
def splitAtE (l : List Char) : List Char × Option (List Char) :=
  let mant := l.takeWhile (fun c => c ≠ 'e' ∧ c ≠ 'E')
  let rest := l.dropWhile (fun c => c ≠ 'e' ∧ c ≠ 'E')
  match rest with
  | [] => (mant, none)
  | _ :: ex => (mant, some ex)

/-- Model of Python `float(str)` restricted to finite decimal literals:
strip whitespace, optional sign, mantissa, optional decimal exponent.
The special spellings `inf`/`nan`, which CPython also accepts, have no
rational image and lie outside the embedding's numeric domain. -/
def pyFloat (l : List Char) : Option Rat :=
  let t := pyStrip l
  let (sign, t') : Rat × List Char :=
    match t with
    | '+' :: r => (1, r)
    | '-' :: r => (-1, r)
    | _ => (1, t)
  let (mant, ex) := splitAtE t'
  match parseMantissa mant with
  | none => none
  | some m =>
    match ex with
    | none => some (sign * m)
    | some ec =>
      match parseExponent ec with
      | none => none
      | some e => some (sign * m * pow10 e)

/-- Errors raised by the embedded Python code: the repository's
`ValidationError` (carrying the offending `date_str`) and Python's
built-in `ValueError` (carrying the offending value). -/
inductive PyError where
  | validationError (date_str : String)
  | valueError (val : String)
deriving DecidableEq

/-- A `datetime.datetime` value as used for chronological ordering:
only the fields the code constructs (year, month, day, hour). -/
structure PyDateTime where
  year : Nat
  month : Nat
  day : Nat
  hour : Nat
deriving DecidableEq

/-- Gregorian leap-year test, as in `datetime`. -/
def isLeapYear (y : Nat) : Bool :=
  (y % 4 == 0 && y % 100 != 0) || (y % 400 == 0)

/-- Days in a month, as validated by the `datetime` constructor. -/
def daysInMonth (y m : Nat) : Nat :=
  if m == 2 then (if isLeapYear y then 29 else 28)
  else if m == 4 || m == 6 || m == 9 || m == 11 then 30
  else 31

/-- Model of the `datetime.datetime(year, month, day, hour)` constructor:
`some` on arguments it accepts (`1 ≤ year ≤ 9999`, valid month/day,
`0 ≤ hour ≤ 23`), `none` where it raises `ValueError`. -/
def pyDatetime (y m d h : Int) : Option PyDateTime :=
  if 1 ≤ y ∧ y ≤ 9999 ∧ 1 ≤ m ∧ m ≤ 12 ∧ 1 ≤ d ∧
     d ≤ (daysInMonth y.toNat m.toNat : Int) ∧ 0 ≤ h ∧ h ≤ 23 then
    some ⟨y.toNat, m.toNat, d.toNat, h.toNat⟩
  else none

/-- Comparison of datetimes: lexicographic on (year, month, day, hour),
mirroring `datetime.__lt__`/`__le__`. -/
def dtLeB (a b : PyDateTime) : Bool :=
  if a.year < b.year then true
  else if b.year < a.year then false
  else if a.month < b.month then true
  else if b.month < a.month then false
  else if a.day < b.day then true
  else if b.day < a.day then false
  else a.hour ≤ b.hour

/-- Model of Python `str.split(sep)` on character lists (full split). -/
def splitOnChar (sep : Char) : List Char → List (List Char)
  | [] => [[]]
  | c :: rest =>
    let r := splitOnChar sep rest
    if c = sep then [] :: r
    else
      match r with
      | [] => [[c]]
      | h :: t => (c :: h) :: t

/-- The part of `date_str` before the first `(`:
Python's `date_str.split("(", maxsplit=1)[0]`. -/
def baseOf (s : List Char) : List Char := s.takeWhile (· ≠ '(')

/-- The part of `date_str` between the first `(` and the next `(` (or the
end): Python's `date_str.split("(")[1]` when a `(` is present. -/
def suffixOf (s : List Char) : List Char :=
  ((s.dropWhile (· ≠ '(')).drop 1).takeWhile (· ≠ '(')

/-- Python `str.rstrip(")")`: drop trailing `)` characters. -/
def rstripParen (l : List Char) : List Char :=
  (l.reverse.dropWhile (· = ')')).reverse

/-- The same-day game number extracted from `date_str`: the integer inside
the parentheses, with every parse failure silently collapsed to `0`
(the `except (ValueError, IndexError)` handler in `parse_date_str`). -/
def gnOf (s : List Char) : Int :=
  if s.contains '(' then
    match pyInt (rstripParen (suffixOf s)) with
    | some n => n
    | none => 0
  else 0

/-- Parse one `_`-separated date part with `int()`, raising `ValueError`
on failure as Python does. -/
def intPart (l : List Char) : Except PyError Int :=
  match pyInt l with
  | some n => Except.ok n
  | none => Except.error (PyError.valueError (String.mk l))

/-- Embedding of `parse_date_str` from `player_stats_service.py`:
strip an optional `(N)` suffix (malformed suffixes become game number 0),
require exactly three `_`-separated parts, convert `YY` to `2000+YY`, and
build a datetime using the game number as the hour. -/
def parse_date_str (date_str : String) : Except PyError PyDateTime :=
  let s := date_str.data
  let base_date := baseOf s
  let game_number := gnOf s
  match splitOnChar '_' base_date with
  | [p0, p1, p2] => do
    let y ← intPart p0
    let m ← intPart p1
    let d ← intPart p2
    match pyDatetime (y + 2000) m d game_number with
    | some dt => Except.ok dt
    | none => Except.error (PyError.valueError "datetime argument out of range")
  | _ => Except.error (PyError.validationError date_str)

deriving instance DecidableEq for Except

/-- The `Player` row from `models.py`: identity fields plus the derived
aggregate fields overwritten by recalculation. -/
structure Player where
  id : Nat
  name : String
  player_id_str : Option String := none
  flag : String := ""
  putr : String := "0.0"
  net : Rat := 0
  biggest_win : Rat := 0
  biggest_loss : Rat := 0
  highest_net : Rat := 0
  lowest_net : Rat := 0
  games_up : Nat := 0
  games_down : Nat := 0
  average_net : Rat := 0
deriving DecidableEq

/-- The `PlayerNickname` alias row from `models.py`. -/
structure PlayerNickname where
  nickname : String
  player_name : String := ""
  player_id : Nat
deriving DecidableEq

/-- The `Game` row from `models.py`. -/
structure Game where
  id : Nat
  date_str : String
  ledger_filename : Option String := none
deriving DecidableEq

/-- The `PlayerGameStats` link row from `models.py`. -/
structure PlayerGameStats where
  player_id : Nat
  game_id : Nat
  net : Rat
deriving DecidableEq

/-- The `LedgerEntry` audit row from `models.py`. -/
structure LedgerEntry where
  game_id : Nat
  player_id : Nat
  player_nickname : String
  player_id_csv : String
  session_start_at : Option String := none
  session_end_at : Option String := none
  buy_in : Rat
  buy_out : Rat
  stack : Rat
  net : Rat
deriving DecidableEq

/-- The database state visible to the import and stats services.  Lists
keep insertion order (the order an `ORDER BY`-free query returns);
`nextGameId` models the autoincrement primary-key counter for `Game`. -/
structure DB where
  players : List Player
  nicknames : List PlayerNickname
  games : List Game
  playerGameStats : List PlayerGameStats
  ledgerEntries : List LedgerEntry
  nextGameId : Nat
deriving DecidableEq

/-- One parsed CSV row as produced by `csv.DictReader`: a missing column
is an absent key (`row.get` returns `None`). -/
structure Row where
  player_nickname : Option String := none
  player_id : Option String := none
  session_start_at : Option String := none
  session_end_at : Option String := none
  buy_in : Option String := none
  buy_out : Option String := none
  stack : Option String := none
  net : Option String := none
deriving DecidableEq

/-- A ledger CSV file: its filename stem (name without `.csv`) and its
parsed rows in file order. -/
structure LedgerFile where
  stem : String
  rows : List Row
deriving DecidableEq

/-- Stable insertion of `x` into a sorted list under `le`. -/
def insertLe (le : α → α → Bool) (x : α) : List α → List α
  | [] => [x]
  | y :: ys => if le x y then x :: y :: ys else y :: insertLe le x ys

/-- Stable insertion sort; as a stable sort by a total preorder it
computes the same list as Python's `sorted`. -/
def insertionSortBy (le : α → α → Bool) : List α → List α
  | [] => []
  | x :: xs => insertLe le x (insertionSortBy le xs)

/-- Effectful map over a list, stopping at the first error, in list
order — the order in which Python's `sorted` evaluates its `key`. -/
def mapExcept (f : α → Except ε β) : List α → Except ε (List β)
  | [] => Except.ok []
  | x :: xs =>
    match f x with
    | Except.error e => Except.error e
    | Except.ok y =>
      match mapExcept f xs with
      | Except.error e => Except.error e
      | Except.ok ys => Except.ok (y :: ys)

/-- Embedding of `game_dao.get_player_stats_with_games`: the player's
`PlayerGameStats` rows inner-joined with their `Game`. -/
def get_player_stats_with_games (db : DB) (pid : Nat) :
    List (PlayerGameStats × Game) :=
  (db.playerGameStats.filter (fun s => s.player_id == pid)).filterMap
    (fun s => (db.games.find? (fun g => g.id == s.game_id)).map (fun g => (s, g)))

/-- The loop state of the statistics pass in `recalculate_player_stats`. -/
structure LoopAcc where
  total_net : Rat
  games_up : Nat
  games_down : Nat
  biggest_win : Rat
  biggest_loss : Rat
  highest_net : Rat
  lowest_net : Rat
  cumulative_net : Rat
deriving DecidableEq

/-- The all-zero initial loop state. -/
def initAcc : LoopAcc := ⟨0, 0, 0, 0, 0, 0, 0, 0⟩

/-- One iteration of the `for stat, _game in sorted_stats` loop. -/
def statsStep (acc : LoopAcc) (game_net : Rat) : LoopAcc :=
  let cumulative := acc.cumulative_net + game_net
  let highest := max acc.highest_net cumulative
  let lowest := min acc.lowest_net cumulative
  if 0 < game_net then
    { acc with
      cumulative_net := cumulative, highest_net := highest, lowest_net := lowest,
      games_up := acc.games_up + 1,
      biggest_win := max acc.biggest_win game_net,
      total_net := acc.total_net + game_net }
  else if game_net < 0 then
    { acc with
      cumulative_net := cumulative, highest_net := highest, lowest_net := lowest,
      games_down := acc.games_down + 1,
      biggest_loss := min acc.biggest_loss game_net,
      total_net := acc.total_net + game_net }
  else
    { acc with
      cumulative_net := cumulative, highest_net := highest, lowest_net := lowest,
      total_net := acc.total_net + game_net }

/-- The whole statistics loop over the chronologically sorted nets. -/
def computeAgg (nets : List Rat) : LoopAcc := nets.foldl statsStep initAcc

/-- The aggregate fields `recalculate_player_stats` writes back. -/
structure AggFields where
  net : Rat
  games_up : Nat
  games_down : Nat
  average_net : Rat
  biggest_win : Rat
  biggest_loss : Rat
  highest_net : Rat
  lowest_net : Rat
deriving DecidableEq

/-- The zero reset written when the player has no games. -/
def zeroAgg : AggFields := ⟨0, 0, 0, 0, 0, 0, 0, 0⟩

/-- Overwrite a player's derived aggregate fields (identity, flag and the
manually-curated `putr` rating untouched). -/
def applyAgg (p : Player) (a : AggFields) : Player :=
  { p with
    net := a.net, games_up := a.games_up, games_down := a.games_down,
    average_net := a.average_net, biggest_win := a.biggest_win,
    biggest_loss := a.biggest_loss, highest_net := a.highest_net,
    lowest_net := a.lowest_net }

/-- Embedding of `player_dao.update_player` after mutating the fetched
player object: the row with that id now carries the new fields. -/
def updatePlayerFields (db : DB) (pid : Nat) (a : AggFields) : DB :=
  { db with players := db.players.map (fun p => if p.id == pid then applyAgg p a else p) }

/-- Chronological sort of the joined stats: Python's
`sorted(stats_with_games, key=lambda x: parse_date_str(x[1].date_str))`,
which first evaluates the key on every element (raising on the first
failure) and then stable-sorts by it. -/
def sortStats (l : List (PlayerGameStats × Game)) :
    Except PyError (List (PlayerGameStats × Game)) :=
  match mapExcept (fun sg => (parse_date_str sg.2.date_str).map (fun k => (k, sg))) l with
  | Except.error e => Except.error e
  | Except.ok keyed =>
    Except.ok ((insertionSortBy (fun a b => dtLeB a.1 b.1) keyed).map (fun kv => kv.2))

/-- The aggregate fields computed from the chronologically sorted stats:
the loop results plus `average_net = total_net / total_games`. -/
def finalAgg (sorted_stats : List (PlayerGameStats × Game)) : AggFields :=
  let acc := computeAgg (sorted_stats.map (fun sg => sg.1.net))
  let total_games := sorted_stats.length
  ⟨acc.total_net, acc.games_up, acc.games_down,
   (if 0 < total_games then acc.total_net / (total_games : Rat) else 0),
   acc.biggest_win, acc.biggest_loss, acc.highest_net, acc.lowest_net⟩

/-- Embedding of `recalculate_player_stats` from
`player_stats_service.py`: fetch the player (silently skipping when
absent), reset to zero on an empty history, otherwise replay the games in
chronological order and overwrite the aggregate fields. -/
def recalculate_player_stats (db : DB) (player_id : Nat) : Except PyError DB :=
  match db.players.find? (fun p => p.id == player_id) with
  | none => Except.ok db
  | some _ =>
    let stats_with_games := get_player_stats_with_games db player_id
    if stats_with_games.isEmpty then
      Except.ok (updatePlayerFields db player_id zeroAgg)
    else
      match sortStats stats_with_games with
      | Except.error e => Except.error e
      | Except.ok sorted_stats =>
        Except.ok (updatePlayerFields db player_id (finalAgg sorted_stats))

/-- Embedding of `recalculate_player_stats` applied to each id of the
`affected_player_ids` set (insertion order; distinct player updates
commute, so the set's iteration order is immaterial). -/
def recalcAll : DB → List Nat → Except PyError DB
  | db, [] => Except.ok db
  | db, pid :: rest =>
    match recalculate_player_stats db pid with
    | Except.error e => Except.error e
    | Except.ok db' => recalcAll db' rest

/-- The `ImportResult` enum of `import_service.py`. -/
inductive ImportResult where
  | SUCCESS
  | GAME_EXISTS
  | MISSING_NICKNAMES
deriving DecidableEq

/-- Embedding of `find_player_by_nickname`: exact alias-table match on
the row's `player_nickname`, then the owning player. -/
def find_player_by_nickname (db : DB) (row : Row) : Option Player :=
  match row.player_nickname with
  | none => none
  | some nick =>
    match db.nicknames.find? (fun n => n.nickname == nick) with
    | none => none
    | some nobj => db.players.find? (fun p => p.id == nobj.player_id)

/-- Embedding of `_parse_float`: `None`, empty and whitespace-only values
coerce to `0.0`; anything else goes through `float()`, whose failure is a
`ValueError` carrying the value. -/
def parse_float (val : Option String) : Except PyError Rat :=
  match val with
  | none => Except.ok 0
  | some v =>
    if v.data.all isPyWs then Except.ok 0
    else
      match pyFloat v.data with
      | some x => Except.ok x
      | none => Except.error (PyError.valueError v)

/-- Embedding of `_validate_ledger_nicknames`: resolve every row, collect
the resolved players in row order, and fail (returning `none`) when any
row's nickname is unmatched. -/
def validate_ledger_nicknames (db : DB) (rows : List Row) :
    Option (List Row × List Player) :=
  let players := rows.filterMap (find_player_by_nickname db)
  let missing := rows.filter (fun r => (find_player_by_nickname db r).isNone)
  if missing.isEmpty then some (rows, players) else none

/-- Prefix test on character lists. -/
def isPre : List Char → List Char → Bool
  | [], _ => true
  | _ :: _, [] => false
  | a :: as_, b :: bs => a == b && isPre as_ bs

/-- Fuelled worker for `replaceAll`; the fuel is an upper bound on the
remaining length, so it never runs out. -/
def replaceAllAux (pat rep : List Char) : Nat → List Char → List Char
  | _, [] => []
  | 0, s => s
  | fuel + 1, c :: rest =>
    if pat ≠ [] ∧ isPre pat (c :: rest) then
      rep ++ replaceAllAux pat rep fuel ((c :: rest).drop pat.length)
    else
      c :: replaceAllAux pat rep fuel rest

/-- Model of Python `str.replace(pat, rep)`: replace every non-overlapping
occurrence, left to right. -/
def replaceAll (s pat rep : List Char) : List Char :=
  replaceAllAux pat rep s.length s

/-- The date-sequence key of a ledger file:
`csv_file.stem.replace("ledger", "")`. -/
def dateStrOf (f : LedgerFile) : String :=
  String.mk (replaceAll f.stem.data "ledger".data [])

/-- One iteration of the second (commit) pass of `import_single_ledger`:
parse the row's `net`, create the `PlayerGameStats` row unless one
already exists for this (player, game) pair, record the player as
affected on creation, then always create the `LedgerEntry` (parsing
`buy_in`, `buy_out`, `stack` in argument order). -/
def processRow (gameId : Nat) (db : DB) (affected : List Nat) (rp : Row × Player) :
    Except PyError (DB × List Nat) :=
  match parse_float rp.1.net with
  | Except.error e => Except.error e
  | Except.ok net =>
    let existing :=
      db.playerGameStats.any (fun s => s.player_id == rp.2.id && s.game_id == gameId)
    let db' :=
      if existing then db
      else { db with playerGameStats := db.playerGameStats ++
              [{ player_id := rp.2.id, game_id := gameId, net := net }] }
    let affected' :=
      if existing then affected
      else if affected.contains rp.2.id then affected else affected ++ [rp.2.id]
    match parse_float rp.1.buy_in with
    | Except.error e => Except.error e
    | Except.ok buy_in =>
      match parse_float rp.1.buy_out with
      | Except.error e => Except.error e
      | Except.ok buy_out =>
        match parse_float rp.1.stack with
        | Except.error e => Except.error e
        | Except.ok stack =>
          Except.ok ({ db' with ledgerEntries := db'.ledgerEntries ++
            [{ game_id := gameId, player_id := rp.2.id,
               player_nickname := rp.1.player_nickname.getD "",
               player_id_csv := rp.1.player_id.getD "",
               session_start_at := rp.1.session_start_at,
               session_end_at := rp.1.session_end_at,
               buy_in := buy_in, buy_out := buy_out, stack := stack,
               net := net }] }, affected')

/-- The whole second pass: `for row, player in zip(rows, players)`. -/
def processRows (gameId : Nat) : DB → List Nat → List (Row × Player) →
    Except PyError (DB × List Nat)
  | db, affected, [] => Except.ok (db, affected)
  | db, affected, rp :: rest =>
    match processRow gameId db affected rp with
    | Except.error e => Except.error e
    | Except.ok (db', affected') => processRows gameId db' affected' rest

/-- The fresh `Game` row `import_single_ledger` creates for a file, with
the autoincrement id the flush populates. -/
def newGameFor (db : DB) (f : LedgerFile) : Game :=
  { id := db.nextGameId, date_str := dateStrOf f,
    ledger_filename := some (f.stem ++ ".csv") }

/-- The session state after `session.add(game); session.flush()`. -/
def withNewGame (db : DB) (f : LedgerFile) : DB :=
  { db with
    games := db.games ++ [newGameFor db f],
    nextGameId := db.nextGameId + 1 }

/-- Embedding of `import_single_ledger`: validate every nickname first
(aborting with `MISSING_NICKNAMES` before any write), skip files whose
date-sequence key already has a `Game` (`GAME_EXISTS`), otherwise create
the game, run the commit pass, and recalculate each affected player. -/
def import_single_ledger (db : DB) (f : LedgerFile) :
    Except PyError (ImportResult × DB) :=
  match validate_ledger_nicknames db f.rows with
  | none => Except.ok (ImportResult.MISSING_NICKNAMES, db)
  | some (rows, players) =>
    if db.games.any (fun g => g.date_str == dateStrOf f) then
      Except.ok (ImportResult.GAME_EXISTS, db)
    else
      if (withNewGame db f).ledgerEntries.any
          (fun e => e.game_id == db.nextGameId) then
        Except.ok (ImportResult.GAME_EXISTS, withNewGame db f)
      else
        match processRows db.nextGameId (withNewGame db f) [] (rows.zip players) with
        | Except.error e => Except.error e
        | Except.ok (db2, affected) =>
          match recalcAll db2 affected with
          | Except.error e => Except.error e
          | Except.ok db3 => Except.ok (ImportResult.SUCCESS, db3)

/-- Lexicographic order on character lists by code point — how Python
compares the path strings that `sorted(ledgers_path.glob("*.csv"))`
sorts. -/
def charListLe : List Char → List Char → Bool
  | [], _ => true
  | _ :: _, [] => false
  | a :: as_, b :: bs => if a = b then charListLe as_ bs else a.toNat < b.toNat

/-- The filename of a ledger file. -/
def fileNameOf (f : LedgerFile) : String := f.stem ++ ".csv"

/-- The filename-sorted order in which `import_all_ledgers` visits the
directory's CSV files. -/
def sortFilesByName (files : List LedgerFile) : List LedgerFile :=
  insertionSortBy (fun a b => charListLe (fileNameOf a).data (fileNameOf b).data) files

/-- The per-file loop body of `import_all_ledgers`, threading one session
through every file; a raised error anywhere propagates out of the loop. -/
def processFiles : DB → List LedgerFile → Except PyError DB
  | db, [] => Except.ok db
  | db, f :: rest =>
    match import_single_ledger db f with
    | Except.error e => Except.error e
    | Except.ok (_, db') => processFiles db' rest

/-- Embedding of `import_all_ledgers`: process the files in
filename-sorted order inside a single session whose one `session.commit()`
runs only after the loop finishes.  An `Except.ok` value is the state that
commit makes durable; an `Except.error` means the exception escaped the
`with Session(...)` block, so the session closed without committing and
the durable state is unchanged. -/
def import_all_ledgers (db : DB) (files : List LedgerFile) : Except PyError DB :=
  processFiles db (sortFilesByName files)

/-- Specification-side definition (from the spec's words, for refinement
comparison): the running cumulative sums of a list of game nets, starting
from the given baseline. -/
def prefixSumsFrom (c : Rat) : List Rat → List Rat
  | [] => []
  | n :: rest => (c + n) :: prefixSumsFrom (c + n) rest

/-- Specification-side definition: the cumulative sums seen during replay,
from the zero baseline. -/
def prefixSums (nets : List Rat) : List Rat := prefixSumsFrom 0 nets

/-- Specification-side definition: "highest_net = the maximum of the
cumulative sums seen, seeded from 0.0". -/
def specHighestNet (nets : List Rat) : Rat := (prefixSums nets).foldl max 0

/-- Specification-side definition: "lowest_net = the minimum of the
cumulative sums seen, seeded from 0.0". -/
def specLowestNet (nets : List Rat) : Rat := (prefixSums nets).foldl min 0

/-- Number of `Game` rows carrying a given date-sequence key. -/
def gamesWithKey (db : DB) (key : String) : Nat :=
  (db.games.filter (fun g => g.date_str == key)).length

/-- Number of `PlayerGameStats` rows whose game carries the given
date-sequence key. -/
def pgsWithKey (db : DB) (key : String) : Nat :=
  (db.playerGameStats.filter
    (fun s => db.games.any (fun g => g.id == s.game_id && g.date_str == key))).length

/-- Number of `LedgerEntry` rows whose game carries the given
date-sequence key. -/
def leWithKey (db : DB) (key : String) : Nat :=
  (db.ledgerEntries.filter
    (fun e => db.games.any (fun g => g.id == e.game_id && g.date_str == key))).length

/-- The PlayerGameStats/LedgerEntry correspondence invariant: each side
has a row for every (player, game) pair the other side has. -/
def pgsLeMatchB (db : DB) : Bool :=
  db.playerGameStats.all (fun s =>
    db.ledgerEntries.any (fun e => e.player_id == s.player_id && e.game_id == s.game_id)) &&
  db.ledgerEntries.all (fun e =>
    db.playerGameStats.any (fun s => s.player_id == e.player_id && s.game_id == e.game_id))

/-- Well-formedness of the database state: the autoincrement counter is
ahead of every existing game id, and child rows reference existing
games.  Every state reachable from an empty database satisfies this. -/
def dbWFB (db : DB) : Bool :=
  db.games.all (fun g => g.id < db.nextGameId) &&
  db.playerGameStats.all (fun s => db.games.any (fun g => g.id == s.game_id)) &&
  db.ledgerEntries.all (fun e => db.games.any (fun g => g.id == e.game_id))

/-- All four numeric CSV fields of a row parse under `_parse_float`. -/
def rowNumericsOkB (r : Row) : Bool :=
  (parse_float r.net).isOk && (parse_float r.buy_in).isOk &&
  (parse_float r.buy_out).isOk && (parse_float r.stack).isOk

/-- Every row of the list resolves through the alias table. -/
def allResolveB (db : DB) (rows : List Row) : Bool :=
  rows.all (fun r => (find_player_by_nickname db r).isSome)

/-- The players the validation pass collects, in row order. -/
def playersOf (db : DB) (rows : List Row) : List Player :=
  rows.filterMap (find_player_by_nickname db)

/-- Every game key currently in the database parses chronologically. -/
def allKeysParseB (db : DB) : Bool :=
  db.games.all (fun g => (parse_date_str g.date_str).isOk)

/-- Test fixture: two seeded players with their aliases and an otherwise
empty database. -/
def dbAB : DB :=
  { players := [{ id := 1, name := "Alice" }, { id := 2, name := "Bob" }],
    nicknames := [{ nickname := "Alice", player_id := 1 },
                  { nickname := "Bob", player_id := 2 }],
    games := [], playerGameStats := [], ledgerEntries := [], nextGameId := 1 }

/-- Test fixture: a well-formed two-row ledger file. -/
def fileGood : LedgerFile :=
  { stem := "ledger23_11_01",
    rows := [{ player_nickname := some "Alice", player_id := some "id1",
               buy_in := some "100", buy_out := some "200", stack := some "200",
               net := some "100" },
             { player_nickname := some "Bob", player_id := some "id2",
               buy_in := some "100", buy_out := some "0", stack := some "",
               net := some "-100" }] }

/-- Test fixture: a ledger file whose second row's nickname is unknown. -/
def fileMissing : LedgerFile :=
  { stem := "ledger23_11_03",
    rows := [{ player_nickname := some "Alice", net := some "10" },
             { player_nickname := some "Zed", net := some "-10" }] }

/-- Test fixture: a two-row ledger file whose rows both resolve to the
same player (two sessions of one player in one game). -/
def fileDup : LedgerFile :=
  { stem := "ledger23_11_04",
    rows := [{ player_nickname := some "Alice", net := some "50" },
             { player_nickname := some "Alice", net := some "-30" }] }

/-- Test fixture: a ledger file with a malformed `net` field. -/
def fileBadNet : LedgerFile :=
  { stem := "ledger23_11_02",
    rows := [{ player_nickname := some "Alice", net := some "abc" }] }

/-- Build a one-player database whose games and per-game stats are stored
in the order given (key, net), with ids following that storage order —
used to replay the spec's chronological-ordering scenarios. -/
def mkStatsDb (l : List (String × Rat)) : DB :=
  { players := [{ id := 1, name := "Alice" }],
    nicknames := [{ nickname := "Alice", player_id := 1 }],
    games := (List.range l.length).zip l |>.map
      (fun p => { id := p.1 + 1, date_str := p.2.1 }),
    playerGameStats := (List.range l.length).zip l |>.map
      (fun p => { player_id := 1, game_id := p.1 + 1, net := p.2.2 }),
    ledgerEntries := [], nextGameId := l.length + 1 }

/-- The aggregate fields of player 1 after recalculation on a fixture
database, observed as an optional `AggFields` record. -/
def recalcObs (db : DB) : Option AggFields :=
  match recalculate_player_stats db 1 with
  | Except.error _ => none
  | Except.ok db' =>
    (db'.players.find? (fun p => p.id == 1)).map
      (fun p => ⟨p.net, p.games_up, p.games_down, p.average_net,
                 p.biggest_win, p.biggest_loss, p.highest_net, p.lowest_net⟩)

/-- The database state after the batch importer has processed `fileGood`
alone — extracted from the program itself, to witness that a later file's
fatal error throws this uncommitted progress away. -/
def dbAfterGood : DB :=
  match processFiles dbAB [fileGood] with
  | Except.ok d => d
  | Except.error _ => dbAB

/-- Validation fails exactly when some row's nickname is unresolved. -/
theorem validate_none_of_missing (db : DB) (rows : List Row) (r : Row)
    (hr : r ∈ rows) (hm : find_player_by_nickname db r = none) :
    validate_ledger_nicknames db rows = none := by
  unfold validate_ledger_nicknames
  have hmem : r ∈ rows.filter (fun r => (find_player_by_nickname db r).isNone) := by
    rw [List.mem_filter]
    exact ⟨hr, by rw [hm]; rfl⟩
  have hne : rows.filter (fun r => (find_player_by_nickname db r).isNone) ≠ [] :=
    List.ne_nil_of_mem hmem
  simp only [List.isEmpty_eq_false.mpr hne]
  rfl

/-- C1.  All-or-nothing import on unresolvable nicknames: whenever some
row of the file has no alias-table match, `import_single_ledger` returns
`MISSING_NICKNAMES` and the database state it returns is exactly the
input state — no Game, no PlayerGameStats, no LedgerEntry is created for
the file's date-sequence key and no player aggregate is recalculated. -/
theorem c1_missing_nicknames_all_or_nothing (db : DB) (f : LedgerFile)
    (h : ∃ r ∈ f.rows, find_player_by_nickname db r = none) :
    import_single_ledger db f =
      Except.ok (ImportResult.MISSING_NICKNAMES, db) := by
  obtain ⟨r, hr, hm⟩ := h
  unfold import_single_ledger
  rw [validate_none_of_missing db f.rows r hr hm]

/-- Witness for C1 on the fixture with the unknown nickname `Zed`. -/
theorem c1_missing_nicknames_witness :
    import_single_ledger dbAB fileMissing =
      Except.ok (ImportResult.MISSING_NICKNAMES, dbAB) :=
  c1_missing_nicknames_all_or_nothing dbAB fileMissing
    ⟨{ player_nickname := some "Zed", net := some "-10" }, by decide, by decide⟩

/-- The loop step always advances the cumulative sum by the game net. -/
theorem statsStep_cumulative (acc : LoopAcc) (n : Rat) :
    (statsStep acc n).cumulative_net = acc.cumulative_net + n := by
  unfold statsStep; split_ifs <;> rfl

/-- The loop step always folds the new cumulative sum into the maximum. -/
theorem statsStep_highest (acc : LoopAcc) (n : Rat) :
    (statsStep acc n).highest_net = max acc.highest_net (acc.cumulative_net + n) := by
  unfold statsStep; split_ifs <;> rfl

/-- The loop step always folds the new cumulative sum into the minimum. -/
theorem statsStep_lowest (acc : LoopAcc) (n : Rat) :
    (statsStep acc n).lowest_net = min acc.lowest_net (acc.cumulative_net + n) := by
  unfold statsStep; split_ifs <;> rfl

/-- The loop step always adds the game net to the total. -/
theorem statsStep_total (acc : LoopAcc) (n : Rat) :
    (statsStep acc n).total_net = acc.total_net + n := by
  unfold statsStep; split_ifs <;> rfl

/-- The loop step counts a win exactly when the net is positive. -/
theorem statsStep_games_up (acc : LoopAcc) (n : Rat) :
    (statsStep acc n).games_up = if 0 < n then acc.games_up + 1 else acc.games_up := by
  unfold statsStep; split_ifs <;> rfl

/-- The loop step counts a loss exactly when the net is negative. -/
theorem statsStep_games_down (acc : LoopAcc) (n : Rat) :
    (statsStep acc n).games_down = if n < 0 then acc.games_down + 1 else acc.games_down := by
  unfold statsStep
  split_ifs with h1 h2 <;> first | rfl | linarith

/-- The loop step updates the biggest win exactly on positive nets. -/
theorem statsStep_biggest_win (acc : LoopAcc) (n : Rat) :
    (statsStep acc n).biggest_win =
      if 0 < n then max acc.biggest_win n else acc.biggest_win := by
  unfold statsStep; split_ifs <;> rfl

/-- The loop step updates the biggest loss exactly on negative nets. -/
theorem statsStep_biggest_loss (acc : LoopAcc) (n : Rat) :
    (statsStep acc n).biggest_loss =
      if n < 0 then min acc.biggest_loss n else acc.biggest_loss := by
  unfold statsStep
  split_ifs with h1 h2 <;> first | rfl | linarith

/-- The statistics loop computes the rolling maximum of the cumulative
sums, for an arbitrary starting accumulator. -/
theorem foldl_statsStep_highest (nets : List Rat) : ∀ acc : LoopAcc,
    (nets.foldl statsStep acc).highest_net =
      (prefixSumsFrom acc.cumulative_net nets).foldl max acc.highest_net := by
  induction nets with
  | nil => intro acc; rfl
  | cons n rest ih =>
    intro acc
    rw [List.foldl_cons, ih (statsStep acc n), statsStep_cumulative, statsStep_highest]
    rfl

/-- The statistics loop computes the rolling minimum of the cumulative
sums, for an arbitrary starting accumulator. -/
theorem foldl_statsStep_lowest (nets : List Rat) : ∀ acc : LoopAcc,
    (nets.foldl statsStep acc).lowest_net =
      (prefixSumsFrom acc.cumulative_net nets).foldl min acc.lowest_net := by
  induction nets with
  | nil => intro acc; rfl
  | cons n rest ih =>
    intro acc
    rw [List.foldl_cons, ih (statsStep acc n), statsStep_cumulative, statsStep_lowest]
    rfl

/-- The statistics loop sums all nets into the total. -/
theorem foldl_statsStep_total (nets : List Rat) : ∀ acc : LoopAcc,
    (nets.foldl statsStep acc).total_net = acc.total_net + nets.sum := by
  induction nets with
  | nil => intro acc; simp
  | cons n rest ih =>
    intro acc
    rw [List.foldl_cons, ih (statsStep acc n), statsStep_total, List.sum_cons]
    ring

/-- The statistics loop counts positive nets into `games_up`. -/
theorem foldl_statsStep_games_up (nets : List Rat) : ∀ acc : LoopAcc,
    (nets.foldl statsStep acc).games_up =
      acc.games_up + (nets.filter (fun n => decide (0 < n))).length := by
  induction nets with
  | nil => intro acc; rfl
  | cons n rest ih =>
    intro acc
    rw [List.foldl_cons, ih (statsStep acc n), statsStep_games_up]
    by_cases h : 0 < n
    · simp [h, List.filter_cons]; omega
    · simp [h, List.filter_cons]

/-- The statistics loop counts negative nets into `games_down`. -/
theorem foldl_statsStep_games_down (nets : List Rat) : ∀ acc : LoopAcc,
    (nets.foldl statsStep acc).games_down =
      acc.games_down + (nets.filter (fun n => decide (n < 0))).length := by
  induction nets with
  | nil => intro acc; rfl
  | cons n rest ih =>
    intro acc
    rw [List.foldl_cons, ih (statsStep acc n), statsStep_games_down]
    by_cases h : n < 0
    · simp [h, List.filter_cons]; omega
    · simp [h, List.filter_cons]

/-- The statistics loop folds the positive nets into `biggest_win`. -/
theorem foldl_statsStep_biggest_win (nets : List Rat) : ∀ acc : LoopAcc,
    (nets.foldl statsStep acc).biggest_win =
      (nets.filter (fun n => decide (0 < n))).foldl max acc.biggest_win := by
  induction nets with
  | nil => intro acc; rfl
  | cons n rest ih =>
    intro acc
    rw [List.foldl_cons, ih (statsStep acc n), statsStep_biggest_win]
    by_cases h : 0 < n
    · simp [h, List.filter_cons]
    · simp [h, List.filter_cons]

/-- The statistics loop folds the negative nets into `biggest_loss`. -/
theorem foldl_statsStep_biggest_loss (nets : List Rat) : ∀ acc : LoopAcc,
    (nets.foldl statsStep acc).biggest_loss =
      (nets.filter (fun n => decide (n < 0))).foldl min acc.biggest_loss := by
  induction nets with
  | nil => intro acc; rfl
  | cons n rest ih =>
    intro acc
    rw [List.foldl_cons, ih (statsStep acc n), statsStep_biggest_loss]
    by_cases h : n < 0
    · simp [h, List.filter_cons]
    · simp [h, List.filter_cons]

/-- Folding `max` over elements bounded by the seed leaves the seed. -/
theorem foldl_max_of_le (l : List Rat) : ∀ a : Rat, (∀ x ∈ l, x ≤ a) →
    l.foldl max a = a := by
  induction l with
  | nil => intro a _; rfl
  | cons x rest ih =>
    intro a h
    rw [List.foldl_cons, max_eq_left (h x (by simp))]
    exact ih a (fun y hy => h y (by simp [hy]))

/-- C3.  Rolling extrema correctness: the statistics loop's `highest_net`
and `lowest_net` are exactly the maximum and minimum of the running
cumulative sums seeded from 0.0 (so a player who never rises above the
zero baseline keeps `highest_net = 0`), and on the concrete chronological
nets `[-100, +200, -50]` recalculation writes `net = 50`,
`highest_net = 100`, `lowest_net = -100`. -/
theorem c3_rolling_extrema :
    (∀ nets : List Rat,
      (computeAgg nets).highest_net = specHighestNet nets ∧
      (computeAgg nets).lowest_net = specLowestNet nets) ∧
    (∀ nets : List Rat, (∀ c ∈ prefixSums nets, c ≤ 0) →
      (computeAgg nets).highest_net = 0) ∧
    (recalcObs (mkStatsDb
        [("23_01_01", -100), ("23_01_02", 200), ("23_01_03", -50)])).map
      (fun a => (a.net, a.highest_net, a.lowest_net)) = some (50, 100, -100) := by
  refine ⟨fun nets => ⟨?_, ?_⟩, fun nets h => ?_, ?_⟩
  · rw [computeAgg, foldl_statsStep_highest]; rfl
  · rw [computeAgg, foldl_statsStep_lowest]; rfl
  · rw [computeAgg, foldl_statsStep_highest]
    exact foldl_max_of_le _ 0 h
  · with_unfolding_all decide

/-- Witness for C3's conditional conjunct: a player always at or below
zero keeps `highest_net = 0`. -/
theorem c3_rolling_extrema_witness :
    (computeAgg [(-100 : Rat), 50, -25]).highest_net = 0 :=
  c3_rolling_extrema.2.1 [(-100 : Rat), 50, -25] (by with_unfolding_all decide)

/-- C4.  Win/loss classification: over every list of game nets the loop
counts `games_up` as the number of positive nets, `games_down` as the
number of negative nets (zero nets increment neither), folds the positive
nets into `biggest_win` and the negative nets into `biggest_loss`, and
totals all nets; on the concrete nets `[100, -50, 200, -75, 25]`
recalculation writes `games_up = 3`, `games_down = 2`, `net = 200`,
`average_net = 40`, `biggest_win = 200`, `biggest_loss = -75`. -/
theorem c4_win_loss_classification :
    (∀ nets : List Rat,
      (computeAgg nets).games_up = (nets.filter (fun n => decide (0 < n))).length ∧
      (computeAgg nets).games_down = (nets.filter (fun n => decide (n < 0))).length ∧
      (computeAgg nets).total_net = nets.sum ∧
      (computeAgg nets).biggest_win =
        (nets.filter (fun n => decide (0 < n))).foldl max 0 ∧
      (computeAgg nets).biggest_loss =
        (nets.filter (fun n => decide (n < 0))).foldl min 0) ∧
    recalcObs (mkStatsDb
        [("23_02_01", 100), ("23_02_02", -50), ("23_02_03", 200),
         ("23_02_04", -75), ("23_02_05", 25)]) =
      some ⟨200, 3, 2, 40, 200, -75, 250, 0⟩ := by
  refine ⟨fun nets => ⟨?_, ?_, ?_, ?_, ?_⟩, ?_⟩
  · rw [computeAgg, foldl_statsStep_games_up]; simp [initAcc]
  · rw [computeAgg, foldl_statsStep_games_down]; simp [initAcc]
  · rw [computeAgg, foldl_statsStep_total]; simp [initAcc]
  · rw [computeAgg, foldl_statsStep_biggest_win]; rfl
  · rw [computeAgg, foldl_statsStep_biggest_loss]; rfl
  · with_unfolding_all decide

/-- Taking while a predicate holds is idempotent. -/
theorem takeWhile_idem {α : Type} (p : α → Bool) (l : List α) :
    (l.takeWhile p).takeWhile p = l.takeWhile p := by
  induction l with
  | nil => rfl
  | cons c rest ih =>
    by_cases h : p c = true
    · simp [List.takeWhile_cons, h, ih]
    · simp [List.takeWhile_cons, h]

/-- The base part of a date key contains no opening parenthesis. -/
theorem baseOf_not_contains (s : List Char) : (baseOf s).contains '(' = false := by
  rw [← Bool.not_eq_true]
  intro hc
  have hmem : '(' ∈ baseOf s := by
    simpa [List.contains, List.elem_iff] using hc
  have hp := List.mem_takeWhile_imp hmem
  simp at hp

/-- C10 counterexample.  The key `23_13_05(x)` has a base date splitting
into exactly three numeric underscore-delimited parts and a malformed
parenthesized suffix, yet `parse_date_str` raises (the `datetime`
constructor rejects month 13) instead of returning a chronological key —
refuting the claim that such keys never raise. -/
theorem c10_counterexample :
    (splitOnChar '_' (baseOf "23_13_05(x)".data)).length = 3 ∧
    (splitOnChar '_' (baseOf "23_13_05(x)".data)).all (fun p => (pyInt p).isSome) = true ∧
    pyInt (rstripParen (suffixOf "23_13_05(x)".data)) = none ∧
    (parse_date_str "23_13_05(x)").isOk = false := by decide

/-- C10 amended.  A key containing `(` whose parenthesized suffix fails
`int()` and whose base date has exactly three underscore parts parses
exactly as the bare base date does: the malformed sequence number is
silently treated as 0, yielding the same chronological key when the base
date is valid and raising the same error when it is not. -/
theorem c10_malformed_suffix_amended (s : String)
    (hparen : s.data.contains '(' = true)
    (hsuffix : pyInt (rstripParen (suffixOf s.data)) = none)
    (hparts : (splitOnChar '_' (baseOf s.data)).length = 3) :
    parse_date_str s = parse_date_str (String.mk (baseOf s.data)) := by
  have hg1 : gnOf s.data = 0 := by
    unfold gnOf
    rw [hparen, hsuffix]
    rfl
  have hg2 : gnOf (baseOf s.data) = 0 := by
    unfold gnOf
    rw [baseOf_not_contains]
    rfl
  have hb : baseOf (baseOf s.data) = baseOf s.data := takeWhile_idem _ s.data
  obtain ⟨p0, p1, p2, hsplit⟩ := List.length_eq_three.mp hparts
  unfold parse_date_str
  simp only [hg1, hg2, hb, hsplit]

/-- Witness for C10's amended claim at the key `23_09_26(x)`. -/
theorem c10_malformed_suffix_witness :
    parse_date_str "23_09_26(x)" =
      parse_date_str (String.mk (baseOf "23_09_26(x)".data)) :=
  c10_malformed_suffix_amended "23_09_26(x)" (by decide) (by decide) (by decide)

/-- C5 counterexample.  The claim quantifies over every sequence number
N, but a same-day game with N = 24 does not even parse: the sequence
number is mapped onto the datetime hour, and the `datetime` constructor
rejects hours above 23 — so not every value of N compares correctly. -/
theorem c5_counterexample :
    (parse_date_str "23_10_07(2)").isOk = true ∧
    (parse_date_str "23_10_07(24)").isOk = false := by decide

/-- C5 amended.  Same-day sequencing holds for sequence numbers 0..23:
the three scenario keys parse to the same day with hours 0, 1, 2; for
equal dates the chronological order is exactly the hour (sequence) order;
a strictly earlier date portion orders strictly first regardless of
hours; sequence numbers 0..23 are accepted while any larger one raises;
and the scenario games (nets 50, 100, -75 on keys `23_10_07`,
`23_10_07(1)`, `23_10_07(2)`), stored in any of the six orders, replay in
key order yielding `net = 75`, `highest_net = 150`, `lowest_net = 0`. -/
theorem c5_same_day_sequencing_amended :
    (parse_date_str "23_10_07" = Except.ok ⟨2023, 10, 7, 0⟩ ∧
     parse_date_str "23_10_07(1)" = Except.ok ⟨2023, 10, 7, 1⟩ ∧
     parse_date_str "23_10_07(2)" = Except.ok ⟨2023, 10, 7, 2⟩) ∧
    (∀ a b : PyDateTime, a.year = b.year → a.month = b.month → a.day = b.day →
      (dtLeB a b = true ↔ a.hour ≤ b.hour)) ∧
    (∀ a b : PyDateTime,
      a.year < b.year ∨ (a.year = b.year ∧ (a.month < b.month ∨
        (a.month = b.month ∧ a.day < b.day))) →
      dtLeB a b = true ∧ dtLeB b a = false) ∧
    (∀ n : Int, 0 ≤ n → n ≤ 23 → (pyDatetime 2023 10 7 n).isSome = true) ∧
    (∀ n : Int, 23 < n → pyDatetime 2023 10 7 n = none) ∧
    (∀ l ∈ [[("23_10_07", (50 : Rat)), ("23_10_07(1)", 100), ("23_10_07(2)", -75)],
            [("23_10_07", (50 : Rat)), ("23_10_07(2)", -75), ("23_10_07(1)", 100)],
            [("23_10_07(1)", (100 : Rat)), ("23_10_07", 50), ("23_10_07(2)", -75)],
            [("23_10_07(1)", (100 : Rat)), ("23_10_07(2)", -75), ("23_10_07", 50)],
            [("23_10_07(2)", (-75 : Rat)), ("23_10_07", 50), ("23_10_07(1)", 100)],
            [("23_10_07(2)", (-75 : Rat)), ("23_10_07(1)", 100), ("23_10_07", 50)]],
      (recalcObs (mkStatsDb l)).map
        (fun a => (a.net, a.highest_net, a.lowest_net)) = some (75, 150, 0)) := by
  refine ⟨by decide, ?_, ?_, ?_, ?_, by with_unfolding_all decide⟩
  · intro a b h1 h2 h3
    unfold dtLeB
    rw [h1, h2, h3]
    simp
  · intro a b h
    unfold dtLeB
    rcases h with h | ⟨h1, h | ⟨h2, h3⟩⟩ <;> split_ifs <;> simp_all <;> omega
  · intro n h0 h23
    unfold pyDatetime
    rw [if_pos]
    · rfl
    · refine ⟨by omega, by omega, by omega, by omega, by omega, ?_, h0, h23⟩
      decide
  · intro n h
    unfold pyDatetime
    rw [if_neg]
    intro hc
    omega

/-- Witness for C5's amended claim: hour-range acceptance at N = 23 and
the hour ordering at two concrete same-day datetimes. -/
theorem c5_same_day_sequencing_witness :
    (pyDatetime 2023 10 7 23).isSome = true ∧ dtLeB ⟨2023, 10, 7, 1⟩ ⟨2023, 10, 7, 2⟩ = true :=
  ⟨c5_same_day_sequencing_amended.2.2.2.1 23 (by decide) (by decide),
   (c5_same_day_sequencing_amended.2.1 ⟨2023, 10, 7, 1⟩ ⟨2023, 10, 7, 2⟩ rfl rfl rfl).mpr
     (by decide)⟩

/-- Overwriting aggregate fields twice is the same as overwriting once. -/
theorem applyAgg_applyAgg (p : Player) (a : AggFields) :
    applyAgg (applyAgg p a) a = applyAgg p a := rfl

/-- Overwriting aggregate fields never changes a player's id. -/
theorem applyAgg_id (p : Player) (a : AggFields) : (applyAgg p a).id = p.id := rfl

/-- Finding a player by id commutes with the aggregate-field update. -/
theorem find_map_update (l : List Player) (pid x : Nat) (a : AggFields) :
    (l.map (fun p => if p.id == pid then applyAgg p a else p)).find?
        (fun p => p.id == x) =
      (l.find? (fun p => p.id == x)).map
        (fun p => if p.id == pid then applyAgg p a else p) := by
  rw [List.find?_map]
  have hfun : ((fun p => p.id == x) ∘
      fun p => if (p.id == pid) = true then applyAgg p a else p) =
      (fun p : Player => p.id == x) := by
    funext q
    by_cases h : (q.id == pid) = true
    · simp [Function.comp, h, applyAgg_id]
    · simp [Function.comp, h]
  rw [hfun]

/-- Updating a player's aggregate fields is idempotent on the list. -/
theorem map_update_idem (l : List Player) (pid : Nat) (a : AggFields) :
    ((l.map (fun p => if p.id == pid then applyAgg p a else p)).map
        (fun p => if p.id == pid then applyAgg p a else p)) =
      l.map (fun p => if p.id == pid then applyAgg p a else p) := by
  rw [List.map_map]
  apply List.map_congr_left
  intro p _
  by_cases h : (p.id == pid) = true
  · simp [Function.comp, h, applyAgg_id, applyAgg_applyAgg]
  · simp [Function.comp, h]

/-- Updating the same player's aggregate fields twice in a row yields the
same database state as updating once. -/
theorem updatePlayerFields_idem (db : DB) (pid : Nat) (a : AggFields) :
    updatePlayerFields (updatePlayerFields db pid a) pid a =
      updatePlayerFields db pid a := by
  unfold updatePlayerFields
  rw [map_update_idem]

/-- The aggregate-field update touches no table other than `players`. -/
theorem get_stats_updatePlayerFields (db : DB) (pid x : Nat) (a : AggFields) :
    get_player_stats_with_games (updatePlayerFields db pid a) x =
      get_player_stats_with_games db x := rfl

/-- C6.  Recalculation idempotence: when `recalculate_player_stats`
succeeds it is a pure function of the player's stats/games tables, which
it never modifies — so running it again immediately reproduces exactly
the same database state. -/
theorem c6_recalculation_idempotent (db : DB) (pid : Nat) (db' : DB)
    (h : recalculate_player_stats db pid = Except.ok db') :
    recalculate_player_stats db' pid = Except.ok db' := by
  unfold recalculate_player_stats at h ⊢
  cases hfind : db.players.find? (fun p => p.id == pid) with
  | none =>
    rw [hfind] at h
    cases h
    rw [hfind]
  | some p =>
    rw [hfind] at h
    by_cases hempty : (get_player_stats_with_games db pid).isEmpty = true
    · rw [if_pos hempty] at h
      cases h
      have hplayers : (updatePlayerFields db pid zeroAgg).players =
          db.players.map (fun q => if q.id == pid then applyAgg q zeroAgg else q) := rfl
      rw [hplayers, find_map_update, hfind, get_stats_updatePlayerFields,
        if_pos hempty]
      exact congrArg Except.ok (updatePlayerFields_idem db pid zeroAgg)
    · rw [if_neg hempty] at h
      cases hsort : sortStats (get_player_stats_with_games db pid) with
      | error e => rw [hsort] at h; cases h
      | ok sorted =>
        rw [hsort] at h
        cases h
        have hplayers : (updatePlayerFields db pid (finalAgg sorted)).players =
            db.players.map
              (fun q => if q.id == pid then applyAgg q (finalAgg sorted) else q) := rfl
        rw [hplayers, find_map_update, hfind, get_stats_updatePlayerFields,
          if_neg hempty, hsort]
        exact congrArg Except.ok (updatePlayerFields_idem db pid (finalAgg sorted))

/-- Witness for C6 on a one-game fixture database. -/
theorem c6_recalculation_idempotent_witness :
    recalculate_player_stats
        (updatePlayerFields (mkStatsDb [("23_01_01", 10)]) 1
          ⟨10, 1, 0, 10, 10, 0, 10, 0⟩) 1 =
      Except.ok (updatePlayerFields (mkStatsDb [("23_01_01", 10)]) 1
          ⟨10, 1, 0, 10, 10, 0, 10, 0⟩) :=
  c6_recalculation_idempotent (mkStatsDb [("23_01_01", 10)]) 1 _
    (by with_unfolding_all decide)

/-- The aggregate-field update keeps the list of player ids. -/
theorem updatePlayerFields_map_id (db : DB) (pid : Nat) (a : AggFields) :
    (updatePlayerFields db pid a).players.map Player.id =
      db.players.map Player.id := by
  unfold updatePlayerFields
  rw [List.map_map]
  apply List.map_congr_left
  intro p _
  by_cases h : (p.id == pid) = true
  · simp [Function.comp, h, applyAgg_id]
  · simp [Function.comp, h]

/-- Recalculation writes only player aggregate fields; every other table
and the list of player ids are untouched. -/
theorem recalculate_preserves (db : DB) (pid : Nat) (db' : DB)
    (h : recalculate_player_stats db pid = Except.ok db') :
    db'.playerGameStats = db.playerGameStats ∧
    db'.ledgerEntries = db.ledgerEntries ∧
    db'.games = db.games ∧
    db'.nicknames = db.nicknames ∧
    db'.nextGameId = db.nextGameId ∧
    db'.players.map Player.id = db.players.map Player.id := by
  unfold recalculate_player_stats at h
  cases hfind : db.players.find? (fun p => p.id == pid) with
  | none =>
    rw [hfind] at h
    cases h
    exact ⟨rfl, rfl, rfl, rfl, rfl, rfl⟩
  | some p =>
    rw [hfind] at h
    by_cases hempty : (get_player_stats_with_games db pid).isEmpty = true
    · rw [if_pos hempty] at h
      cases h
      exact ⟨rfl, rfl, rfl, rfl, rfl, updatePlayerFields_map_id db pid zeroAgg⟩
    · rw [if_neg hempty] at h
      cases hsort : sortStats (get_player_stats_with_games db pid) with
      | error e => rw [hsort] at h; cases h
      | ok sorted =>
        rw [hsort] at h
        cases h
        exact ⟨rfl, rfl, rfl, rfl, rfl, updatePlayerFields_map_id db pid _⟩

/-- The per-import recalculation loop preserves every non-player table
and the list of player ids. -/
theorem recalcAll_preserves (l : List Nat) : ∀ db db' : DB,
    recalcAll db l = Except.ok db' →
    db'.playerGameStats = db.playerGameStats ∧
    db'.ledgerEntries = db.ledgerEntries ∧
    db'.games = db.games ∧
    db'.nicknames = db.nicknames ∧
    db'.nextGameId = db.nextGameId ∧
    db'.players.map Player.id = db.players.map Player.id := by
  induction l with
  | nil =>
    intro db db' h
    cases h
    exact ⟨rfl, rfl, rfl, rfl, rfl, rfl⟩
  | cons pid rest ih =>
    intro db db' h
    unfold recalcAll at h
    cases hr : recalculate_player_stats db pid with
    | error e => rw [hr] at h; cases h
    | ok db1 =>
      rw [hr] at h
      obtain ⟨h1, h2, h3, h4, h5, h6⟩ := recalculate_preserves db pid db1 hr
      obtain ⟨g1, g2, g3, g4, g5, g6⟩ := ih db1 db' h
      exact ⟨g1.trans h1, g2.trans h2, g3.trans h3, g4.trans h4,
        g5.trans h5, g6.trans h6⟩

/-- One commit-pass row keeps the PlayerGameStats/LedgerEntry pair
correspondence: the new LedgerEntry's (player, game) pair is covered by
an existing or freshly created PlayerGameStats row. -/
theorem processRow_pairs (gameId : Nat) (db : DB) (aff : List Nat)
    (rp : Row × Player) (db' : DB) (aff' : List Nat)
    (h : processRow gameId db aff rp = Except.ok (db', aff'))
    (hs : ∀ s ∈ db.playerGameStats, ∃ e ∈ db.ledgerEntries,
      e.player_id = s.player_id ∧ e.game_id = s.game_id)
    (he : ∀ e ∈ db.ledgerEntries, ∃ s ∈ db.playerGameStats,
      s.player_id = e.player_id ∧ s.game_id = e.game_id) :
    (∀ s ∈ db'.playerGameStats, ∃ e ∈ db'.ledgerEntries,
      e.player_id = s.player_id ∧ e.game_id = s.game_id) ∧
    (∀ e ∈ db'.ledgerEntries, ∃ s ∈ db'.playerGameStats,
      s.player_id = e.player_id ∧ s.game_id = e.game_id) := by
  unfold processRow at h
  cases h1 : parse_float rp.1.net with
  | error e => rw [h1] at h; cases h
  | ok net =>
    rw [h1] at h
    cases h2 : parse_float rp.1.buy_in with
    | error e => rw [h2] at h; cases h
    | ok buy_in =>
      rw [h2] at h
      cases h3 : parse_float rp.1.buy_out with
      | error e => rw [h3] at h; cases h
      | ok buy_out =>
        rw [h3] at h
        cases h4 : parse_float rp.1.stack with
        | error e => rw [h4] at h; cases h
        | ok stack =>
          rw [h4] at h
          by_cases hex : (db.playerGameStats.any
              (fun s => s.player_id == rp.2.id && s.game_id == gameId)) = true
          · simp only [hex, if_true] at h
            cases h
            obtain ⟨s0, hs0, hbeq⟩ := List.any_eq_true.mp hex
            rw [Bool.and_eq_true, beq_iff_eq, beq_iff_eq] at hbeq
            constructor
            · intro s hsmem
              obtain ⟨e, hemem, hp⟩ := hs s hsmem
              exact ⟨e, List.mem_append_left _ hemem, hp⟩
            · intro e hemem
              rcases List.mem_append.mp hemem with hold | hnew
              · exact he e hold
              · rw [List.mem_singleton] at hnew
                subst hnew
                exact ⟨s0, hs0, hbeq.1, hbeq.2⟩
          · simp only [hex, if_false, Bool.false_eq_true] at h
            cases h
            constructor
            · intro s hsmem
              rcases List.mem_append.mp hsmem with hold | hnew
              · obtain ⟨e, hemem, hp⟩ := hs s hold
                exact ⟨e, List.mem_append_left _ hemem, hp⟩
              · rw [List.mem_singleton] at hnew
                subst hnew
                refine ⟨_, List.mem_append_right _ (List.mem_singleton.mpr rfl), rfl, rfl⟩
            · intro e hemem
              rcases List.mem_append.mp hemem with hold | hnew
              · obtain ⟨s, hsmem, hp⟩ := he e hold
                exact ⟨s, List.mem_append_left _ hsmem, hp⟩
              · rw [List.mem_singleton] at hnew
                subst hnew
                refine ⟨_, List.mem_append_right _ (List.mem_singleton.mpr rfl), rfl, rfl⟩

/-- The whole commit pass keeps the pair correspondence. -/
theorem processRows_pairs (gameId : Nat) (l : List (Row × Player)) :
    ∀ (db : DB) (aff : List Nat) (db' : DB) (aff' : List Nat),
    processRows gameId db aff l = Except.ok (db', aff') →
    (∀ s ∈ db.playerGameStats, ∃ e ∈ db.ledgerEntries,
      e.player_id = s.player_id ∧ e.game_id = s.game_id) →
    (∀ e ∈ db.ledgerEntries, ∃ s ∈ db.playerGameStats,
      s.player_id = e.player_id ∧ s.game_id = e.game_id) →
    (∀ s ∈ db'.playerGameStats, ∃ e ∈ db'.ledgerEntries,
      e.player_id = s.player_id ∧ e.game_id = s.game_id) ∧
    (∀ e ∈ db'.ledgerEntries, ∃ s ∈ db'.playerGameStats,
      s.player_id = e.player_id ∧ s.game_id = e.game_id) := by
  induction l with
  | nil =>
    intro db aff db' aff' h hs he
    cases h
    exact ⟨hs, he⟩
  | cons rp rest ih =>
    intro db aff db' aff' h hs he
    unfold processRows at h
    cases hr : processRow gameId db aff rp with
    | error e => rw [hr] at h; cases h
    | ok p =>
      rw [hr] at h
      obtain ⟨hs1, he1⟩ := processRow_pairs gameId db aff rp p.1 p.2 hr hs he
      exact ih p.1 p.2 db' aff' h hs1 he1

/-- The Boolean pair-correspondence check, in propositional form. -/
theorem pgsLeMatchB_iff (db : DB) : pgsLeMatchB db = true ↔
    ((∀ s ∈ db.playerGameStats, ∃ e ∈ db.ledgerEntries,
        e.player_id = s.player_id ∧ e.game_id = s.game_id) ∧
     (∀ e ∈ db.ledgerEntries, ∃ s ∈ db.playerGameStats,
        s.player_id = e.player_id ∧ s.game_id = e.game_id)) := by
  unfold pgsLeMatchB
  simp [List.all_eq_true, List.any_eq_true]

/-- C7.  PlayerGameStats/LedgerEntry correspondence: any import outcome
preserves the invariant that the two tables carry exactly the same
(player, game) pairs — including for files where two rows resolve to the
same player, where the single PlayerGameStats row covers both new
LedgerEntry rows. -/
theorem c7_pgs_le_correspondence (db : DB) (f : LedgerFile) (res : ImportResult)
    (db' : DB) (hm : pgsLeMatchB db = true)
    (h : import_single_ledger db f = Except.ok (res, db')) :
    pgsLeMatchB db' = true := by
  obtain ⟨hs, he⟩ := (pgsLeMatchB_iff db).mp hm
  unfold import_single_ledger at h
  split at h
  · cases h; exact hm
  · split at h
    · cases h; exact hm
    · split at h
      · cases h; exact hm
      · split at h
        · cases h
        · rename_i db2 affected heq
          split at h
          · cases h
          · rename_i db3 heq3
            cases h
            obtain ⟨hs2, he2⟩ :=
              processRows_pairs _ _ _ _ db2 affected heq hs he
            obtain ⟨p1, p2, _, _, _, _⟩ := recalcAll_preserves affected db2 _ heq3
            apply (pgsLeMatchB_iff _).mpr
            rw [p1, p2]
            exact ⟨hs2, he2⟩

/-- Witness for C7: the duplicate-player file on the seeded fixture. -/
theorem c7_pgs_le_correspondence_witness :
    pgsLeMatchB
      (match import_single_ledger dbAB fileDup with
       | Except.ok (_, d) => d
       | Except.error _ => dbAB) = true := by
  cases himp : import_single_ledger dbAB fileDup with
  | error e =>
    exfalso
    have : (import_single_ledger dbAB fileDup).isOk = true := by
      with_unfolding_all decide
    rw [himp] at this
    cases this
  | ok p =>
    have := c7_pgs_le_correspondence dbAB fileDup p.1 p.2 (by decide)
      (by rw [himp])
    simpa [himp] using this

/-- Stripping a whitespace-only string leaves nothing. -/
theorem pyStrip_nil_of_ws (l : List Char) (h : l.all isPyWs = true) :
    pyStrip l = [] := by
  unfold pyStrip
  have h1 : l.dropWhile isPyWs = [] :=
    List.dropWhile_eq_nil_iff.mpr (fun x hx => by
      exact List.all_eq_true.mp h x hx)
  rw [h1]
  rfl

/-- A whitespace-only value has no float parse. -/
theorem pyFloat_none_of_ws (l : List Char) (h : l.all isPyWs = true) :
    pyFloat l = none := by
  unfold pyFloat
  rw [pyStrip_nil_of_ws l h]
  rfl

/-- A bad row makes the commit-pass row processing raise. -/
theorem processRow_error_of_bad (gameId : Nat) (db : DB) (aff : List Nat)
    (rp : Row × Player) (hbad : rowNumericsOkB rp.1 = false) :
    ∃ e, processRow gameId db aff rp = Except.error e := by
  unfold rowNumericsOkB at hbad
  unfold processRow
  cases h1 : parse_float rp.1.net with
  | error e => exact ⟨e, rfl⟩
  | ok net =>
    rw [h1] at hbad
    cases h2 : parse_float rp.1.buy_in with
    | error e => exact ⟨e, rfl⟩
    | ok buy_in =>
      rw [h2] at hbad
      cases h3 : parse_float rp.1.buy_out with
      | error e => exact ⟨e, rfl⟩
      | ok buy_out =>
        rw [h3] at hbad
        cases h4 : parse_float rp.1.stack with
        | error e => exact ⟨e, rfl⟩
        | ok stack =>
          rw [h4] at hbad
          simp [Except.isOk, Except.toBool] at hbad

/-- A good row makes the commit-pass row processing succeed. -/
theorem processRow_ok_of_good (gameId : Nat) (db : DB) (aff : List Nat)
    (rp : Row × Player) (hgood : rowNumericsOkB rp.1 = true) :
    ∃ out, processRow gameId db aff rp = Except.ok out := by
  unfold rowNumericsOkB at hgood
  unfold processRow
  cases h1 : parse_float rp.1.net with
  | error e => rw [h1] at hgood; simp [Except.isOk, Except.toBool] at hgood
  | ok net =>
    rw [h1] at hgood
    cases h2 : parse_float rp.1.buy_in with
    | error e => rw [h2] at hgood; simp [Except.isOk, Except.toBool] at hgood
    | ok buy_in =>
      rw [h2] at hgood
      cases h3 : parse_float rp.1.buy_out with
      | error e => rw [h3] at hgood; simp [Except.isOk, Except.toBool] at hgood
      | ok buy_out =>
        rw [h3] at hgood
        cases h4 : parse_float rp.1.stack with
        | error e => rw [h4] at hgood; simp [Except.isOk, Except.toBool] at hgood
        | ok stack => exact ⟨_, rfl⟩

/-- A bad row anywhere in the commit pass makes the whole pass raise. -/
theorem processRows_error_of_bad (gameId : Nat) (l : List (Row × Player)) :
    ∀ (db : DB) (aff : List Nat), (∃ rp ∈ l, rowNumericsOkB rp.1 = false) →
    ∃ e, processRows gameId db aff l = Except.error e := by
  induction l with
  | nil =>
    intro db aff h
    obtain ⟨rp, hmem, _⟩ := h
    cases hmem
  | cons rp rest ih =>
    intro db aff h
    obtain ⟨rq, hmem, hbad⟩ := h
    by_cases hr : rowNumericsOkB rp.1 = true
    · rcases List.mem_cons.mp hmem with heq | hmem'
      · subst heq
        rw [hr] at hbad
        cases hbad
      · obtain ⟨out, hout⟩ := processRow_ok_of_good gameId db aff rp hr
        obtain ⟨o1, o2⟩ := out
        obtain ⟨e, he⟩ := ih o1 o2 ⟨rq, hmem', hbad⟩
        refine ⟨e, ?_⟩
        unfold processRows
        rw [hout]
        exact he
    · rw [Bool.not_eq_true] at hr
      obtain ⟨e, he⟩ := processRow_error_of_bad gameId db aff rp hr
      refine ⟨e, ?_⟩
      unfold processRows
      rw [he]

/-- A successful validation returns the file's rows unchanged together
with the resolved players, and certifies that every row resolves. -/
theorem validate_some_shape (db : DB) (rows0 rows : List Row)
    (players : List Player)
    (h : validate_ledger_nicknames db rows0 = some (rows, players)) :
    rows = rows0 ∧ players = rows0.filterMap (find_player_by_nickname db) ∧
      ∀ r ∈ rows0, (find_player_by_nickname db r).isSome = true := by
  unfold validate_ledger_nicknames at h
  by_cases hempty :
      (rows0.filter (fun r => (find_player_by_nickname db r).isNone)).isEmpty = true
  · rw [if_pos hempty] at h
    injection h with h'
    injection h' with h1 h2
    refine ⟨h1.symm, h2.symm, fun r hr => ?_⟩
    rw [List.isEmpty_eq_true] at hempty
    by_cases hfind : (find_player_by_nickname db r).isSome = true
    · exact hfind
    · exfalso
      have hmemf : r ∈ rows0.filter (fun r => (find_player_by_nickname db r).isNone) := by
        rw [List.mem_filter]
        refine ⟨hr, ?_⟩
        cases hf : find_player_by_nickname db r with
        | none => rfl
        | some p =>
          rw [hf] at hfind
          simp at hfind
      rw [hempty] at hmemf
      cases hmemf
  · rw [if_neg hempty] at h
    cases h

/-- Resolving every row yields exactly one player per row. -/
theorem filterMap_length_of_resolve (db : DB) (rows : List Row)
    (h : ∀ r ∈ rows, (find_player_by_nickname db r).isSome = true) :
    (rows.filterMap (find_player_by_nickname db)).length = rows.length := by
  induction rows with
  | nil => rfl
  | cons r rest ih =>
    have hr := h r (by simp)
    cases hf : find_player_by_nickname db r with
    | none => rw [hf] at hr; cases hr
    | some p =>
      rw [List.filterMap_cons, hf]
      simp only [List.length_cons]
      rw [ih (fun q hq => h q (by simp [hq]))]

/-- Every left element of a zip of equal-length lists appears in a pair. -/
theorem mem_zip_left {α β : Type} (rows : List α) :
    ∀ (players : List β) (r : α), r ∈ rows → rows.length = players.length →
    ∃ p, (r, p) ∈ rows.zip players := by
  induction rows with
  | nil =>
    intro players r hr _
    cases hr
  | cons r0 rest ih =>
    intro players r hr hlen
    cases players with
    | nil => cases hlen
    | cons p0 ps =>
      rcases List.mem_cons.mp hr with heq | hmem
      · subst heq
        exact ⟨p0, by simp [List.zip_cons_cons]⟩
      · obtain ⟨p, hp⟩ := ih ps r hmem (by simpa using hlen)
        exact ⟨p, by simp [List.zip_cons_cons, hp]⟩

/-- C9.  Numeric coercion contract: a missing value and a whitespace-only
or empty value coerce to `0.0`; a value the float parser accepts yields
exactly its parsed value; a non-empty malformed value raises a
`ValueError` carrying the offending string; and a file containing any
such malformed numeric field — reached after validation and the
existence checks — makes the whole import raise instead of writing. -/
theorem c9_numeric_coercion :
    parse_float none = Except.ok 0 ∧
    (∀ s : String, s.data.all isPyWs = true → parse_float (some s) = Except.ok 0) ∧
    (∀ (s : String) (x : Rat), pyFloat s.data = some x →
      parse_float (some s) = Except.ok x) ∧
    (∀ s : String, s.data.all isPyWs = false → pyFloat s.data = none →
      parse_float (some s) = Except.error (PyError.valueError s)) ∧
    (∀ (db : DB) (f : LedgerFile) (rows : List Row) (players : List Player),
      validate_ledger_nicknames db f.rows = some (rows, players) →
      (db.games.any (fun g => g.date_str == dateStrOf f)) = false →
      ((withNewGame db f).ledgerEntries.any
        (fun e => e.game_id == db.nextGameId)) = false →
      (∃ r ∈ f.rows, rowNumericsOkB r = false) →
      ∃ e, import_single_ledger db f = Except.error e) := by
  refine ⟨rfl, ?_, ?_, ?_, ?_⟩
  · intro s h
    simp only [parse_float]
    rw [if_pos h]
  · intro s x hx
    simp only [parse_float]
    by_cases hws : s.data.all isPyWs = true
    · rw [pyFloat_none_of_ws s.data hws] at hx
      cases hx
    · rw [if_neg hws, hx]
  · intro s hws hnone
    simp only [parse_float]
    rw [if_neg (by rw [hws]; exact Bool.false_ne_true), hnone]
  · intro db f rows players hval hg hle hbad
    obtain ⟨hrows, hplayers, hres⟩ := validate_some_shape db f.rows rows players hval
    subst hrows
    obtain ⟨r, hrm, hrbad⟩ := hbad
    have hlen : f.rows.length = players.length := by
      rw [hplayers]
      exact (filterMap_length_of_resolve db f.rows hres).symm
    obtain ⟨p, hzip⟩ := mem_zip_left f.rows players r hrm hlen
    obtain ⟨e, hpe⟩ := processRows_error_of_bad db.nextGameId
      (f.rows.zip players) (withNewGame db f) [] ⟨(r, p), hzip, hrbad⟩
    refine ⟨e, ?_⟩
    unfold import_single_ledger
    rw [hval]
    simp only [hg, hle, Bool.false_eq_true, if_false, hpe]

/-- Witness for C9: the malformed value `abc` raises a `ValueError`, and
the fixture file carrying it aborts its whole import with an error. -/
theorem c9_numeric_coercion_witness :
    parse_float (some "abc") = Except.error (PyError.valueError "abc") ∧
    (∃ e, import_single_ledger dbAB fileBadNet = Except.error e) :=
  ⟨c9_numeric_coercion.2.2.2.1 "abc" (by decide) (by with_unfolding_all decide),
   c9_numeric_coercion.2.2.2.2 dbAB fileBadNet fileBadNet.rows
     [{ id := 1, name := "Alice" }] (by decide) (by decide) (by decide)
     ⟨{ player_nickname := some "Alice", net := some "abc" }, by decide,
      by with_unfolding_all decide⟩⟩

/-- C8 counterexample.  The batch importer commits only once, after the
loop: the good file imports fine on its own, but batching it before a
file with a malformed numeric field makes the whole batch raise — the
exception escapes the session block before the single `session.commit()`,
so the good file's rows are rolled back rather than preserved. -/
theorem c8_counterexample :
    (import_all_ledgers dbAB [fileGood]).isOk = true ∧
    import_all_ledgers dbAB [fileGood, fileBadNet] =
      Except.error (PyError.valueError "abc") := by
  constructor
  · with_unfolding_all decide
  · with_unfolding_all decide

/-- C8 amended.  The batch importer processes the files in
filename-sorted order through the single-file import, threading one
session; a raised failure on any file propagates out of the loop, so the
whole batch — including files processed before the failing one — returns
that error and nothing is committed. -/
theorem c8_batch_amended :
    (∀ (db : DB) (files : List LedgerFile),
      import_all_ledgers db files = processFiles db (sortFilesByName files)) ∧
    (∀ (pre : List LedgerFile) (db dbPre : DB) (f : LedgerFile)
       (rest : List LedgerFile) (e : PyError),
      processFiles db pre = Except.ok dbPre →
      import_single_ledger dbPre f = Except.error e →
      processFiles db (pre ++ f :: rest) = Except.error e) ∧
    (∀ (db : DB) (files pre : List LedgerFile) (f : LedgerFile)
       (rest : List LedgerFile) (dbPre : DB) (e : PyError),
      sortFilesByName files = pre ++ f :: rest →
      processFiles db pre = Except.ok dbPre →
      import_single_ledger dbPre f = Except.error e →
      import_all_ledgers db files = Except.error e) := by
  have hmid : ∀ (pre : List LedgerFile) (db dbPre : DB) (f : LedgerFile)
      (rest : List LedgerFile) (e : PyError),
      processFiles db pre = Except.ok dbPre →
      import_single_ledger dbPre f = Except.error e →
      processFiles db (pre ++ f :: rest) = Except.error e := by
    intro pre
    induction pre with
    | nil =>
      intro db dbPre f rest e h1 h2
      cases h1
      rw [List.nil_append]
      unfold processFiles
      rw [h2]
    | cons g pre' ih =>
      intro db dbPre f rest e h1 h2
      rw [List.cons_append]
      unfold processFiles at h1 ⊢
      cases hg : import_single_ledger db g with
      | error e' => rw [hg] at h1; cases h1
      | ok p =>
        rw [hg] at h1
        obtain ⟨r, db1⟩ := p
        exact ih db1 dbPre f rest e h1 h2
  refine ⟨fun db files => rfl, hmid, ?_⟩
  intro db files pre f rest dbPre e hsort h1 h2
  unfold import_all_ledgers
  rw [hsort]
  exact hmid pre db dbPre f rest e h1 h2

/-- Witness for C8's amended claim on the concrete two-file batch. -/
theorem c8_batch_witness :
    import_all_ledgers dbAB [fileGood, fileBadNet] =
      Except.error (PyError.valueError "abc") :=
  c8_batch_amended.2.2 dbAB [fileGood, fileBadNet] [fileGood] fileBadNet []
    dbAfterGood (PyError.valueError "abc") (by with_unfolding_all decide)
    (by with_unfolding_all decide) (by with_unfolding_all decide)

/-- A clean commit-pass row (numerics parse, no pre-existing stats for
the pair) appends exactly one PlayerGameStats row and one LedgerEntry
row, both for this (player, game) pair. -/
theorem processRow_clean (gameId : Nat) (db : DB) (aff : List Nat)
    (rp : Row × Player) (hgood : rowNumericsOkB rp.1 = true)
    (hnoex : ∀ s ∈ db.playerGameStats,
      (s.player_id == rp.2.id && s.game_id == gameId) = false) :
    ∃ (stats : PlayerGameStats) (entry : LedgerEntry) (aff' : List Nat),
      processRow gameId db aff rp = Except.ok
        ({ db with
            playerGameStats := db.playerGameStats ++ [stats],
            ledgerEntries := db.ledgerEntries ++ [entry] }, aff') ∧
      stats.player_id = rp.2.id ∧ stats.game_id = gameId ∧
      entry.player_id = rp.2.id ∧ entry.game_id = gameId := by
  have hex : db.playerGameStats.any
      (fun s => s.player_id == rp.2.id && s.game_id == gameId) = false := by
    rw [List.any_eq_false]
    intro s hsm
    rw [hnoex s hsm]
    exact Bool.false_ne_true
  unfold rowNumericsOkB at hgood
  simp only [processRow]
  cases h1 : parse_float rp.1.net with
  | error e => rw [h1] at hgood; simp [Except.isOk, Except.toBool] at hgood
  | ok net =>
    rw [h1] at hgood
    cases h2 : parse_float rp.1.buy_in with
    | error e => rw [h2] at hgood; simp [Except.isOk, Except.toBool] at hgood
    | ok buy_in =>
      rw [h2] at hgood
      cases h3 : parse_float rp.1.buy_out with
      | error e => rw [h3] at hgood; simp [Except.isOk, Except.toBool] at hgood
      | ok buy_out =>
        rw [h3] at hgood
        cases h4 : parse_float rp.1.stack with
        | error e => rw [h4] at hgood; simp [Except.isOk, Except.toBool] at hgood
        | ok stack =>
          refine ⟨{ player_id := rp.2.id, game_id := gameId, net := net },
            { game_id := gameId, player_id := rp.2.id,
              player_nickname := rp.1.player_nickname.getD "",
              player_id_csv := rp.1.player_id.getD "",
              session_start_at := rp.1.session_start_at,
              session_end_at := rp.1.session_end_at,
              buy_in := buy_in, buy_out := buy_out, stack := stack, net := net },
            (if aff.contains rp.2.id = true then aff else aff ++ [rp.2.id]),
            ?_, rfl, rfl, rfl, rfl⟩
          simp only [hex, Bool.false_eq_true, if_false]

/-- A clean commit pass over pairwise-distinct players appends one
PlayerGameStats row and one LedgerEntry row per input row, all carrying
this game's id, and leaves every other component of the state unchanged. -/
theorem processRows_clean (gameId : Nat) :
    ∀ (l : List (Row × Player)) (db : DB) (aff : List Nat),
    (∀ rp ∈ l, rowNumericsOkB rp.1 = true) →
    (∀ s ∈ db.playerGameStats, ∀ rp ∈ l,
      (s.player_id == rp.2.id && s.game_id == gameId) = false) →
    (l.map (fun rp => rp.2.id)).Nodup →
    ∃ (newStats : List PlayerGameStats) (newEntries : List LedgerEntry)
      (aff' : List Nat),
      processRows gameId db aff l = Except.ok
        ({ db with
            playerGameStats := db.playerGameStats ++ newStats,
            ledgerEntries := db.ledgerEntries ++ newEntries }, aff') ∧
      newStats.length = l.length ∧ newEntries.length = l.length ∧
      (∀ s ∈ newStats, s.game_id = gameId) ∧
      (∀ e ∈ newEntries, e.game_id = gameId) := by
  intro l
  induction l with
  | nil =>
    intro db aff _ _ _
    refine ⟨[], [], aff, ?_, rfl, rfl, ?_, ?_⟩
    · simp only [List.append_nil]
      rfl
    · intro s h
      cases h
    · intro e h
      cases h
  | cons rp rest ih =>
    intro db aff hgood hnoex hnodup
    obtain ⟨stats, entry, aff1, hrow, hsp, hsg, hep, heg⟩ :=
      processRow_clean gameId db aff rp (hgood rp (by simp))
        (fun s hs => hnoex s hs rp (by simp))
    rw [List.map_cons, List.nodup_cons] at hnodup
    obtain ⟨hnotin, hnodup'⟩ := hnodup
    obtain ⟨ns, ne, aff2, hrest, hnsl, hnel, hnsg, hneg⟩ :=
      ih { db with
            playerGameStats := db.playerGameStats ++ [stats],
            ledgerEntries := db.ledgerEntries ++ [entry] } aff1
        (fun rq hq => hgood rq (by simp [hq]))
        (by
          intro s hsm rq hq
          rcases List.mem_append.mp hsm with hold | hnew
          · exact hnoex s hold rq (by simp [hq])
          · rw [List.mem_singleton] at hnew
            subst hnew
            rw [Bool.and_eq_false_iff]
            left
            rw [hsp]
            rw [beq_eq_false_iff_ne]
            intro hcontra
            exact hnotin (by
              rw [List.mem_map]
              exact ⟨rq, hq, hcontra.symm⟩))
        hnodup'
    refine ⟨stats :: ns, entry :: ne, aff2, ?_, by simp [hnsl], by simp [hnel],
      ?_, ?_⟩
    · unfold processRows
      simp only [hrow]
      rw [hrest]
      simp [List.append_assoc]
    · intro s hs
      rcases List.mem_cons.mp hs with h | h
      · rw [h]; exact hsg
      · exact hnsg s h
    · intro e he
      rcases List.mem_cons.mp he with h | h
      · rw [h]; exact heg
      · exact hneg e h

/-- When every row resolves, validation succeeds with the file's rows and
the resolved players. -/
theorem validate_some_of_resolve (db : DB) (rows : List Row)
    (h : ∀ r ∈ rows, (find_player_by_nickname db r).isSome = true) :
    validate_ledger_nicknames db rows =
      some (rows, rows.filterMap (find_player_by_nickname db)) := by
  unfold validate_ledger_nicknames
  have hnil : rows.filter (fun r => (find_player_by_nickname db r).isNone) = [] := by
    rw [List.filter_eq_nil_iff]
    intro r hr
    have hr' := h r hr
    cases hf : find_player_by_nickname db r with
    | none => rw [hf] at hr'; cases hr'
    | some p => simp [hf]
  rw [hnil]
  rfl

/-- Well-formedness: no ledger entry references the fresh game id. -/
theorem dbWF_le_fresh (db : DB) (h : dbWFB db = true) :
    ∀ e ∈ db.ledgerEntries, (e.game_id == db.nextGameId) = false := by
  unfold dbWFB at h
  rw [Bool.and_eq_true, Bool.and_eq_true] at h
  obtain ⟨⟨hg, _⟩, hl⟩ := h
  intro e he
  obtain ⟨g, hgm, hgid⟩ := List.any_eq_true.mp (List.all_eq_true.mp hl e he)
  have hlt : g.id < db.nextGameId := by
    have := List.all_eq_true.mp hg g hgm
    exact of_decide_eq_true this
  rw [beq_iff_eq] at hgid
  rw [beq_eq_false_iff_ne]
  omega

/-- Well-formedness: no stats row references the fresh game id. -/
theorem dbWF_pgs_fresh (db : DB) (h : dbWFB db = true) :
    ∀ s ∈ db.playerGameStats, (s.game_id == db.nextGameId) = false := by
  unfold dbWFB at h
  rw [Bool.and_eq_true, Bool.and_eq_true] at h
  obtain ⟨⟨hg, hs⟩, _⟩ := h
  intro s hsm
  obtain ⟨g, hgm, hgid⟩ := List.any_eq_true.mp (List.all_eq_true.mp hs s hsm)
  have hlt : g.id < db.nextGameId := by
    have := List.all_eq_true.mp hg g hgm
    exact of_decide_eq_true this
  rw [beq_iff_eq] at hgid
  rw [beq_eq_false_iff_ne]
  omega

/-- Finding a player by id succeeds on one list iff it succeeds on
another carrying the same ids. -/
theorem find_isSome_of_map_id : ∀ (l1 l2 : List Player),
    l1.map Player.id = l2.map Player.id → ∀ x : Nat,
    (l1.find? (fun p => p.id == x)).isSome =
      (l2.find? (fun p => p.id == x)).isSome := by
  intro l1
  induction l1 with
  | nil =>
    intro l2 h x
    cases l2 with
    | nil => rfl
    | cons q qs => simp at h
  | cons p rest ih =>
    intro l2 h x
    cases l2 with
    | nil => simp at h
    | cons q qs =>
      rw [List.map_cons, List.map_cons] at h
      injection h with hid hrest
      by_cases hx : (p.id == x) = true
      · have h1 : (fun q : Player => q.id == x) p = true := hx
        have h2 : (fun q0 : Player => q0.id == x) q = true := by
          show (q.id == x) = true
          rw [← hid]
          exact hx
        rw [List.find?_cons_of_pos rest h1, List.find?_cons_of_pos qs h2]
        rfl
      · have h1 : ¬(fun q : Player => q.id == x) p = true := hx
        have h2 : ¬(fun q0 : Player => q0.id == x) q = true := by
          show ¬(q.id == x) = true
          rw [← hid]
          exact hx
        rw [List.find?_cons_of_neg rest h1, List.find?_cons_of_neg qs h2]
        exact ih qs hrest x

/-- Nickname resolution survives any state change that keeps the alias
table and the set of player ids. -/
theorem resolve_preserved (db db' : DB) (hn : db'.nicknames = db.nicknames)
    (hp : db'.players.map Player.id = db.players.map Player.id) (r : Row)
    (h : (find_player_by_nickname db r).isSome = true) :
    (find_player_by_nickname db' r).isSome = true := by
  cases hnick : r.player_nickname with
  | none => simp [find_player_by_nickname, hnick] at h
  | some nick =>
    simp only [find_player_by_nickname, hnick] at h ⊢
    rw [hn]
    cases hobj : db.nicknames.find? (fun n => n.nickname == nick) with
    | none =>
      rw [hobj] at h
      simp at h
    | some nobj =>
      simp only [hobj] at h ⊢
      rw [find_isSome_of_map_id db'.players db.players hp]
      exact h

/-- A pointwise-successful effectful map succeeds. -/
theorem mapExcept_ok {α β : Type} (f : α → Except PyError β) :
    ∀ l : List α, (∀ x ∈ l, ∃ y, f x = Except.ok y) →
    ∃ ys, mapExcept f l = Except.ok ys := by
  intro l
  induction l with
  | nil => intro _; exact ⟨[], rfl⟩
  | cons x xs ih =>
    intro h
    obtain ⟨y, hy⟩ := h x (by simp)
    obtain ⟨ys, hys⟩ := ih (fun z hz => h z (by simp [hz]))
    refine ⟨y :: ys, ?_⟩
    unfold mapExcept
    rw [hy, hys]

/-- Each joined game comes from the games table. -/
theorem get_stats_game_mem (db : DB) (pid : Nat) (sg : PlayerGameStats × Game)
    (h : sg ∈ get_player_stats_with_games db pid) : sg.2 ∈ db.games := by
  unfold get_player_stats_with_games at h
  obtain ⟨s', _, heq⟩ := List.mem_filterMap.mp h
  cases hf : db.games.find? (fun g0 => g0.id == s'.game_id) with
  | none => rw [hf] at heq; cases heq
  | some g0 =>
    rw [hf] at heq
    simp only [Option.map] at heq
    injection heq with heq'
    have hg : sg.2 = g0 := by rw [← heq']
    rw [hg]
    exact List.mem_of_find?_eq_some hf

/-- The chronological sort succeeds when every joined game key parses. -/
theorem sortStats_ok (l : List (PlayerGameStats × Game))
    (h : ∀ sg ∈ l, (parse_date_str sg.2.date_str).isOk = true) :
    ∃ out, sortStats l = Except.ok out := by
  unfold sortStats
  obtain ⟨ys, hys⟩ := mapExcept_ok
    (fun sg => (parse_date_str sg.2.date_str).map (fun k => (k, sg))) l
    (fun sg hsg => by
      cases hp : parse_date_str sg.2.date_str with
      | error e =>
        have hx := h sg hsg
        rw [hp] at hx
        cases hx
      | ok dt =>
        refine ⟨(dt, sg), ?_⟩
        show Except.map (fun k => (k, sg)) (parse_date_str sg.2.date_str) =
          Except.ok (dt, sg)
        rw [hp]
        rfl)
  rw [hys]
  exact ⟨_, rfl⟩

/-- Recalculation succeeds when every game key in the database parses. -/
theorem recalculate_ok (db : DB) (pid : Nat)
    (h : ∀ g ∈ db.games, (parse_date_str g.date_str).isOk = true) :
    ∃ db', recalculate_player_stats db pid = Except.ok db' := by
  unfold recalculate_player_stats
  cases hfind : db.players.find? (fun p => p.id == pid) with
  | none => exact ⟨db, rfl⟩
  | some p =>
    by_cases hempty : (get_player_stats_with_games db pid).isEmpty = true
    · refine ⟨updatePlayerFields db pid zeroAgg, ?_⟩
      rw [if_pos hempty]
    · obtain ⟨sorted, hsort⟩ := sortStats_ok (get_player_stats_with_games db pid)
        (fun sg hsg => h sg.2 (get_stats_game_mem db pid sg hsg))
      refine ⟨updatePlayerFields db pid (finalAgg sorted), ?_⟩
      rw [if_neg hempty, hsort]

/-- The whole recalculation loop succeeds when every game key parses. -/
theorem recalcAll_ok (l : List Nat) : ∀ db : DB,
    (∀ g ∈ db.games, (parse_date_str g.date_str).isOk = true) →
    ∃ db', recalcAll db l = Except.ok db' := by
  induction l with
  | nil => intro db _; exact ⟨db, rfl⟩
  | cons pid rest ih =>
    intro db h
    obtain ⟨db1, h1⟩ := recalculate_ok db pid h
    have hg : db1.games = db.games := (recalculate_preserves db pid db1 h1).2.2.1
    obtain ⟨db', h'⟩ := ih db1 (by rw [hg]; exact h)
    refine ⟨db', ?_⟩
    unfold recalcAll
    rw [h1]
    exact h'

/-- A games table with one fresh game carrying the key and all old keys
different has exactly one game with the key. -/
theorem gamesWithKey_append_fresh (db3 : DB) (key : String)
    (olds : List Game) (g0 : Game) (hgames : db3.games = olds ++ [g0])
    (hold : ∀ g ∈ olds, (g.date_str == key) = false) (hg0 : g0.date_str = key) :
    gamesWithKey db3 key = 1 := by
  unfold gamesWithKey
  rw [hgames, List.filter_append]
  have h1 : olds.filter (fun g => g.date_str == key) = [] := by
    rw [List.filter_eq_nil_iff]
    intro g hg
    rw [hold g hg]
    exact Bool.false_ne_true
  rw [h1]
  simp [hg0]

/-- Counting PlayerGameStats rows joined to the fresh keyed game: old
rows never match (old games have other keys, and no old row references
the fresh id), new rows all match. -/
theorem pgsWithKey_count (db3 : DB) (key : String)
    (olds ns : List PlayerGameStats) (oldg : List Game) (g0 : Game) (gid : Nat)
    (hpgs : db3.playerGameStats = olds ++ ns)
    (hgames : db3.games = oldg ++ [g0])
    (holdg : ∀ g ∈ oldg, (g.date_str == key) = false)
    (hg0id : g0.id = gid) (hg0key : g0.date_str = key)
    (holds : ∀ s ∈ olds, (s.game_id == gid) = false)
    (hns : ∀ s ∈ ns, s.game_id = gid) :
    pgsWithKey db3 key = ns.length := by
  unfold pgsWithKey
  rw [hpgs, hgames, List.filter_append]
  have hold0 : olds.filter
      (fun s => (oldg ++ [g0]).any (fun g => g.id == s.game_id && g.date_str == key)) = [] := by
    rw [List.filter_eq_nil_iff]
    intro s hsm
    rw [List.any_append]
    simp only [Bool.or_eq_true, not_or]
    constructor
    · rw [List.any_eq_true]
      rintro ⟨g, hg, hgp⟩
      rw [Bool.and_eq_true] at hgp
      rw [holdg g hg] at hgp
      exact Bool.false_ne_true hgp.2
    · rw [List.any_eq_true]
      rintro ⟨g, hg, hgp⟩
      rw [List.mem_singleton] at hg
      subst hg
      rw [Bool.and_eq_true, beq_iff_eq, hg0id] at hgp
      have := holds s hsm
      rw [beq_eq_false_iff_ne] at this
      exact this hgp.1.symm
  have hnew : ns.filter
      (fun s => (oldg ++ [g0]).any (fun g => g.id == s.game_id && g.date_str == key)) = ns := by
    rw [List.filter_eq_self]
    intro s hsm
    rw [List.any_append, Bool.or_eq_true]
    right
    rw [List.any_eq_true]
    refine ⟨g0, List.mem_singleton.mpr rfl, ?_⟩
    rw [Bool.and_eq_true, beq_iff_eq, beq_iff_eq]
    exact ⟨by rw [hg0id, hns s hsm], hg0key⟩
  rw [hold0, hnew]
  simp

/-- The same count for LedgerEntry rows. -/
theorem leWithKey_count (db3 : DB) (key : String)
    (olds ne : List LedgerEntry) (oldg : List Game) (g0 : Game) (gid : Nat)
    (hle : db3.ledgerEntries = olds ++ ne)
    (hgames : db3.games = oldg ++ [g0])
    (holdg : ∀ g ∈ oldg, (g.date_str == key) = false)
    (hg0id : g0.id = gid) (hg0key : g0.date_str = key)
    (holds : ∀ e ∈ olds, (e.game_id == gid) = false)
    (hne : ∀ e ∈ ne, e.game_id = gid) :
    leWithKey db3 key = ne.length := by
  unfold leWithKey
  rw [hle, hgames, List.filter_append]
  have hold0 : olds.filter
      (fun e => (oldg ++ [g0]).any (fun g => g.id == e.game_id && g.date_str == key)) = [] := by
    rw [List.filter_eq_nil_iff]
    intro e hem
    rw [List.any_append]
    simp only [Bool.or_eq_true, not_or]
    constructor
    · rw [List.any_eq_true]
      rintro ⟨g, hg, hgp⟩
      rw [Bool.and_eq_true] at hgp
      rw [holdg g hg] at hgp
      exact Bool.false_ne_true hgp.2
    · rw [List.any_eq_true]
      rintro ⟨g, hg, hgp⟩
      rw [List.mem_singleton] at hg
      subst hg
      rw [Bool.and_eq_true, beq_iff_eq, hg0id] at hgp
      have := holds e hem
      rw [beq_eq_false_iff_ne] at this
      exact this hgp.1.symm
  have hnew : ne.filter
      (fun e => (oldg ++ [g0]).any (fun g => g.id == e.game_id && g.date_str == key)) = ne := by
    rw [List.filter_eq_self]
    intro e hem
    rw [List.any_append, Bool.or_eq_true]
    right
    rw [List.any_eq_true]
    refine ⟨g0, List.mem_singleton.mpr rfl, ?_⟩
    rw [Bool.and_eq_true, beq_iff_eq, beq_iff_eq]
    exact ⟨by rw [hg0id, hne e hem], hg0key⟩
  rw [hold0, hnew]
  simp

/-- C2 counterexample.  A ledger file whose two rows both resolve (to the
same player) imports with SUCCESS, but yields one PlayerGameStats row
rather than the claim's "exactly N" = 2 — the commit pass creates a
stats row only when none exists yet for the (player, game) pair, while
it always creates a LedgerEntry per row. -/
theorem c2_counterexample :
    fileDup.rows.length = 2 ∧
    (match import_single_ledger dbAB fileDup with
     | Except.ok (r, d) =>
       decide (r = ImportResult.SUCCESS) &&
         (pgsWithKey d (dateStrOf fileDup) == 1) &&
         (leWithKey d (dateStrOf fileDup) == 2)
     | Except.error _ => false) = true := by
  constructor
  · rfl
  · with_unfolding_all decide

/-- C2 amended.  Re-import idempotence for a well-formed fresh file: when
every row resolves, the resolved players are pairwise distinct, every
numeric field parses, the file's key is new and parseable, and the
database is well-formed with parseable keys, the first import returns
SUCCESS and creates exactly one Game, N PlayerGameStats and N
LedgerEntry rows for the file's key, and re-importing the identical file
returns GAME_EXISTS and writes nothing. -/
theorem c2_reimport_idempotence_amended (db : DB) (f : LedgerFile)
    (hres : ∀ r ∈ f.rows, (find_player_by_nickname db r).isSome = true)
    (hnum : ∀ r ∈ f.rows, rowNumericsOkB r = true)
    (hkey : ∀ g ∈ db.games, (g.date_str == dateStrOf f) = false)
    (hwf : dbWFB db = true)
    (hnodup : ((playersOf db f.rows).map Player.id).Nodup)
    (hparse : allKeysParseB db = true)
    (hfkey : (parse_date_str (dateStrOf f)).isOk = true) :
    ∃ db1, import_single_ledger db f = Except.ok (ImportResult.SUCCESS, db1) ∧
      gamesWithKey db1 (dateStrOf f) = 1 ∧
      pgsWithKey db1 (dateStrOf f) = f.rows.length ∧
      leWithKey db1 (dateStrOf f) = f.rows.length ∧
      import_single_ledger db1 f = Except.ok (ImportResult.GAME_EXISTS, db1) := by
  have hval := validate_some_of_resolve db f.rows hres
  have hany1 : (db.games.any (fun g => g.date_str == dateStrOf f)) = false := by
    rw [List.any_eq_false]
    intro g hg
    rw [hkey g hg]
    exact Bool.false_ne_true
  have hfresh_le := dbWF_le_fresh db hwf
  have hfresh_pgs := dbWF_pgs_fresh db hwf
  have hany2 : ((withNewGame db f).ledgerEntries.any
      (fun e => e.game_id == db.nextGameId)) = false := by
    rw [List.any_eq_false]
    intro e he
    rw [hfresh_le e he]
    exact Bool.false_ne_true
  have hlen : f.rows.length = (playersOf db f.rows).length :=
    (filterMap_length_of_resolve db f.rows hres).symm
  have hzgood : ∀ rp ∈ f.rows.zip (playersOf db f.rows),
      rowNumericsOkB rp.1 = true :=
    fun rp hrp => hnum rp.1 (List.of_mem_zip hrp).1
  have hznodup : ((f.rows.zip (playersOf db f.rows)).map
      (fun rp => rp.2.id)).Nodup := by
    have hsnd : (f.rows.zip (playersOf db f.rows)).map Prod.snd =
        playersOf db f.rows :=
      List.map_snd_zip _ _ (le_of_eq hlen.symm)
    have hcomp : ((f.rows.zip (playersOf db f.rows)).map (fun rp => rp.2.id)) =
        ((f.rows.zip (playersOf db f.rows)).map Prod.snd).map Player.id := by
      rw [List.map_map]
      rfl
    rw [hcomp, hsnd]
    exact hnodup
  have hnoex : ∀ s ∈ (withNewGame db f).playerGameStats,
      ∀ rp ∈ f.rows.zip (playersOf db f.rows),
      (s.player_id == rp.2.id && s.game_id == db.nextGameId) = false := by
    intro s hs rp _
    rw [Bool.and_eq_false_iff]
    right
    exact hfresh_pgs s hs
  obtain ⟨ns, ne, aff, hproc, hnsl, hnel, hnsg, hneg⟩ :=
    processRows_clean db.nextGameId (f.rows.zip (playersOf db f.rows))
      (withNewGame db f) [] hzgood hnoex hznodup
  unfold playersOf at hproc
  have hparse2 : ∀ g ∈ ({ withNewGame db f with
      playerGameStats := (withNewGame db f).playerGameStats ++ ns,
      ledgerEntries := (withNewGame db f).ledgerEntries ++ ne } : DB).games,
      (parse_date_str g.date_str).isOk = true := by
    intro g hg
    have hg' : g ∈ db.games ++ [newGameFor db f] := hg
    rcases List.mem_append.mp hg' with hold | hnew
    · exact List.all_eq_true.mp hparse g hold
    · rw [List.mem_singleton] at hnew
      subst hnew
      exact hfkey
  obtain ⟨db3, hrecalc⟩ := recalcAll_ok aff _ hparse2
  obtain ⟨hp1, hp2, hp3, hp4, hp5, hp6⟩ := recalcAll_preserves aff _ db3 hrecalc
  have himp1 : import_single_ledger db f =
      Except.ok (ImportResult.SUCCESS, db3) := by
    unfold import_single_ledger
    rw [hval]
    simp only [hany1, hany2, Bool.false_eq_true, if_false, hproc, hrecalc]
  have hgames3 : db3.games = db.games ++ [newGameFor db f] := hp3.trans rfl
  have hpgs3 : db3.playerGameStats = db.playerGameStats ++ ns := hp1.trans rfl
  have hle3 : db3.ledgerEntries = db.ledgerEntries ++ ne := hp2.trans rfl
  have hnick3 : db3.nicknames = db.nicknames := hp4.trans rfl
  have hpid3 : db3.players.map Player.id = db.players.map Player.id :=
    hp6.trans rfl
  have hcount1 : gamesWithKey db3 (dateStrOf f) = 1 :=
    gamesWithKey_append_fresh db3 (dateStrOf f) db.games (newGameFor db f)
      hgames3 hkey rfl
  have hnszip : ns.length = f.rows.length := by
    rw [hnsl, List.length_zip, ← hlen, Nat.min_self]
  have hnezip : ne.length = f.rows.length := by
    rw [hnel, List.length_zip, ← hlen, Nat.min_self]
  have hcount2 : pgsWithKey db3 (dateStrOf f) = f.rows.length := by
    rw [← hnszip]
    exact pgsWithKey_count db3 (dateStrOf f) db.playerGameStats ns db.games
      (newGameFor db f) db.nextGameId hpgs3 hgames3 hkey rfl rfl hfresh_pgs hnsg
  have hcount3 : leWithKey db3 (dateStrOf f) = f.rows.length := by
    rw [← hnezip]
    exact leWithKey_count db3 (dateStrOf f) db.ledgerEntries ne db.games
      (newGameFor db f) db.nextGameId hle3 hgames3 hkey rfl rfl hfresh_le hneg
  have hres3 : ∀ r ∈ f.rows, (find_player_by_nickname db3 r).isSome = true :=
    fun r hr => resolve_preserved db db3 hnick3 hpid3 r (hres r hr)
  have hany3 : (db3.games.any (fun g => g.date_str == dateStrOf f)) = true := by
    rw [List.any_eq_true]
    refine ⟨newGameFor db f, ?_, ?_⟩
    · rw [hgames3]
      simp
    · simp [newGameFor]
  have himp2 : import_single_ledger db3 f =
      Except.ok (ImportResult.GAME_EXISTS, db3) := by
    unfold import_single_ledger
    rw [validate_some_of_resolve db3 f.rows hres3]
    simp only [hany3, if_true]
  exact ⟨db3, himp1, hcount1, hcount2, hcount3, himp2⟩

/-- Witness for C2's amended claim on the two-player fixture file. -/
theorem c2_reimport_idempotence_witness :
    ∃ db1, import_single_ledger dbAB fileGood =
        Except.ok (ImportResult.SUCCESS, db1) ∧
      gamesWithKey db1 (dateStrOf fileGood) = 1 ∧
      pgsWithKey db1 (dateStrOf fileGood) = fileGood.rows.length ∧
      leWithKey db1 (dateStrOf fileGood) = fileGood.rows.length ∧
      import_single_ledger db1 fileGood =
        Except.ok (ImportResult.GAME_EXISTS, db1) :=
  c2_reimport_idempotence_amended dbAB fileGood
    (by with_unfolding_all decide) (by with_unfolding_all decide)
    (by with_unfolding_all decide) (by with_unfolding_all decide)
    (by with_unfolding_all decide) (by with_unfolding_all decide)
    (by with_unfolding_all decide)
